import Mathlib

/-!
Verification of the Boxxer single-molecule blob detector core
(`src/src/Maxima.cpp`, `src/src/FilterKernels.cpp`, `src/src/GaussFilter.cpp`,
`src/src/Boxxer2D.cpp`, `src/src/Boxxer3D.cpp`) against its natural-language
specification.

The C++ code is shallowly embedded:
* images are total functions from coordinates to an ordered value type
  (values are only compared by the maxima finders, so any linear order works;
  concrete instances use `ℚ`),
* the real-valued kernel computations are embedded over `ℝ` with `Real.exp`,
* the imperative loops of the fast 3×3 maxima core are written as
  structurally recursive functions on an explicit iteration budget (`fuel`);
  the budget is always instantiated with the axis length, which bounds the
  number of loop iterations, so the embedded function performs exactly the
  iterations of the C loop,
* `throw`ing code is modelled with `Except`/`Option` results.
-/

namespace Boxxer

/-- An image for `Maxima2D` (`arma::Mat<FloatT>`): column-major storage is
abstracted to a function of the two indices; axis 0 (`x`) is the
fastest-varying axis, exactly as in the C++ `im(x,y)` accesses. -/
structure Image2D (α : Type) where
  sizeX : ℕ
  sizeY : ℕ
  val : ℕ → ℕ → α

/-- A candidate maximum of `Maxima2D`: the column `(x, y)` written by
`detect_maxima` together with the stored value. -/
abbrev Cand2 (α : Type) := ℕ × ℕ × α

variable {α : Type} [LinearOrder α]

/-- One guard of `Maxima2D::maxima_3x3_edges`: the pixel `(x,y)` is recorded
iff its value is strictly greater than the value at every listed neighbor
(`val > im(...) && ...` in the source). -/
def edgeScanGuard (im : Image2D α) (x y : ℕ) (nbrs : List (ℕ × ℕ)) :
    List (Cand2 α) :=
  if ∀ q ∈ nbrs, im.val q.1 q.2 < im.val x y then [(x, y, im.val x y)] else []

/-- `Maxima2D::maxima_3x3_edges` (Maxima.cpp:174-216): corners and edges are
scanned counterclockwise, each pixel checked against its clipped
3-neighborhood. -/
def maxima_3x3_edges (im : Image2D α) : List (Cand2 α) :=
  let sX := im.sizeX
  let sY := im.sizeY
  edgeScanGuard im 0 0 [(0,1),(1,0),(1,1)]
  ++ ((List.range' 1 (sX-2)).flatMap fun x =>
        edgeScanGuard im x 0 [(x-1,0),(x+1,0),(x-1,1),(x,1),(x+1,1)])
  ++ edgeScanGuard im (sX-1) 0 [(sX-1,1),(sX-2,0),(sX-2,1)]
  ++ ((List.range' 1 (sY-2)).flatMap fun y =>
        edgeScanGuard im (sX-1) y
          [(sX-1,y-1),(sX-1,y+1),(sX-2,y-1),(sX-2,y),(sX-2,y+1)])
  ++ edgeScanGuard im (sX-1) (sY-1) [(sX-1,sY-2),(sX-2,sY-1),(sX-2,sY-2)]
  ++ ((List.range' 1 (sX-2)).reverse.flatMap fun x =>
        edgeScanGuard im x (sY-1)
          [(x-1,sY-1),(x+1,sY-1),(x-1,sY-2),(x,sY-2),(x+1,sY-2)])
  ++ edgeScanGuard im 0 (sY-1) [(0,sY-2),(1,sY-1),(1,sY-2)]
  ++ ((List.range' 1 (sY-2)).reverse.flatMap fun y =>
        edgeScanGuard im 0 y [(0,y-1),(0,y+1),(1,y-1),(1,y),(1,y+1)])

/-- The `do { x++; ... } while(x < sizeX-1 && val <= im(x+1,y))` run-following
loop inside `Maxima2D::maxima_3x3` (Maxima.cpp:137-139).  `fuel` bounds the
number of iterations; it is instantiated with `im.sizeX`, which the loop can
never exhaust since `x` increases by one per iteration. -/
def follow (im : Image2D α) (y : ℕ) : ℕ → ℕ → ℕ
  | 0, x => x + 1
  | fuel+1, x =>
    if x+1 < im.sizeX - 1 ∧ im.val (x+1) y ≤ im.val (x+2) y then
      follow im y fuel (x+1)
    else x + 1

/-- The straight-line tail of a `maxima_3x3` loop iteration after a 1D maximum
has been established at `x` (Maxima.cpp:144-152): mark `skip[x+1]`, check the
next row recording skips, check the previous row, and emit on success.
Returns the optional emission and the updated `skip`, `skip_next` tables. -/
def checkEmit (im : Image2D α) (y x : ℕ) (skip skipNext : List Bool) :
    Option (Cand2 α) × List Bool × List Bool :=
  let skip := skip.set (x+1) true
  let val := im.val x y
  if val ≤ im.val (x-1) (y+1) then (none, skip, skipNext) else
  let skipNext := skipNext.set (x-1) true
  if val ≤ im.val x (y+1) then (none, skip, skipNext) else
  let skipNext := skipNext.set x true
  if val ≤ im.val (x+1) (y+1) then (none, skip, skipNext) else
  let skipNext := skipNext.set (x+1) true
  if val ≤ im.val (x-1) (y-1) ∨ val ≤ im.val x (y-1) ∨ val ≤ im.val (x+1) (y-1)
  then (none, skip, skipNext)
  else (some (x, y, val), skip, skipNext)

/-- The inner `for(x=1; x<sizeX-1; x++)` loop of `Maxima2D::maxima_3x3`
(Maxima.cpp:133-153) for row `y`.  Returns the emissions of the row in order
together with the final `skip_next` table.  `fuel` bounds the iteration count
and is instantiated with `im.sizeX`. -/
def rowLoop (im : Image2D α) (y : ℕ) :
    ℕ → ℕ → List Bool → List Bool → List (Cand2 α) × List Bool
  | 0, _, _, skipNext => ([], skipNext)
  | fuel+1, x, skip, skipNext =>
    if x < im.sizeX - 1 then
      if skip.getD x false then rowLoop im y fuel (x+1) skip skipNext
      else if im.val x y ≤ im.val (x+1) y then
        let x' := follow im y im.sizeX x
        if im.sizeX - 1 ≤ x' then ([], skipNext)
        else
          let r := checkEmit im y x' skip skipNext
          let rest := rowLoop im y fuel (x'+1) r.2.1 r.2.2
          (r.1.toList ++ rest.1, rest.2)
      else if im.val x y ≤ im.val (x-1) y then
        rowLoop im y fuel (x+1) skip skipNext
      else
        let r := checkEmit im y x skip skipNext
        let rest := rowLoop im y fuel (x+1) r.2.1 r.2.2
        (r.1.toList ++ rest.1, rest.2)
    else ([], skipNext)

/-- The outer `for(y=1; y<sizeY-1; y++)` loop of `Maxima2D::maxima_3x3`
(Maxima.cpp:132-156): run the row, zero the old `skip` buffer, and swap the
two buffers.  `fuel` is instantiated with `im.sizeY`. -/
def imageLoop (im : Image2D α) :
    ℕ → ℕ → List Bool → List Bool → List (Cand2 α)
  | 0, _, _, _ => []
  | fuel+1, y, skip, skipNext =>
    if y < im.sizeY - 1 then
      let r := rowLoop im y im.sizeX 1 skip skipNext
      r.1 ++ imageLoop im fuel (y+1) r.2 (List.replicate im.sizeX false)
    else []

/-- `Maxima2D::maxima_3x3` (Maxima.cpp:123-158): edge/corner enumeration
followed by the skip-table interior scan with zero-initialized skip buffers. -/
def maxima_3x3 (im : Image2D α) : List (Cand2 α) :=
  maxima_3x3_edges im ++
    imageLoop im im.sizeY 1 (List.replicate im.sizeX false)
      (List.replicate im.sizeX false)

/-- `Maxima2D::maxima_3x3_slow` (Maxima.cpp:160-172): edges, then the raster
scan of the interior emitting exactly the strict 3×3 maxima: a pixel is
skipped iff it is `<=` one of its eight neighbors. -/
def maxima_3x3_slow (im : Image2D α) : List (Cand2 α) :=
  maxima_3x3_edges im ++
    (List.range' 1 (im.sizeY - 2)).flatMap fun y =>
      (List.range' 1 (im.sizeX - 2)).flatMap fun x =>
        let val := im.val x y
        if val ≤ im.val (x-1) (y-1) ∨ val ≤ im.val (x-1) y ∨
           val ≤ im.val (x-1) (y+1) ∨ val ≤ im.val x (y-1) ∨
           val ≤ im.val x (y+1) ∨ val ≤ im.val (x+1) (y-1) ∨
           val ≤ im.val (x+1) y ∨ val ≤ im.val (x+1) (y+1)
        then [] else [(x, y, val)]

/-- The candidate-pruning predicate of `Maxima2D::maxima_nxn`
(Maxima.cpp:268-289) with half-width `k`: scan the clipped box column by
column; for the column `y = max_y - 1` (the C condition
`max_y-1 <= y && y <= max_y-1` on unsigned indices, unsatisfiable when
`max_y = 0` because of wraparound) scan only `x <= max_x-2` and
`x >= max_x+2`, skipping the span already checked by the 3×3 core; reject as
soon as a strictly larger value is seen. -/
def nxnKeep2D (im : Image2D α) (k : ℕ) (c : Cand2 α) : Bool :=
  let mx := c.1
  let my := c.2.1
  let mv := c.2.2
  let xU := min (mx + k) (im.sizeX - 1)
  let xL := if mx < k then 0 else mx - k
  let yU := min (my + k) (im.sizeY - 1)
  let yL := if my < k then 0 else my - k
  (List.range' yL (yU + 1 - yL)).all fun y =>
    if my ≠ 0 ∧ my - 1 ≤ y ∧ y ≤ my - 1 then
      ((List.range' xL (mx - 1 - xL)).all fun x =>
        decide (¬ mv < im.val x y)) &&
      ((List.range' (mx+2) (xU + 1 - (mx+2))).all fun x =>
        decide (¬ mv < im.val x y))
    else
      (List.range' xL (xU + 1 - xL)).all fun x => decide (¬ mv < im.val x y)

/-- The pruning stage of `Maxima2D::maxima_nxn` (Maxima.cpp:257-295): the
3×3-core candidates are filtered in order by the clipped-box scan. -/
def maxima_nxn_prune (im : Image2D α) (filter_size : ℕ)
    (cands : List (Cand2 α)) : List (Cand2 α) :=
  cands.filter (nxnKeep2D im ((filter_size - 1) / 2))

/-- `Maxima2D::find_maxima` emission list (Maxima.cpp:39-44): the 3×3 core, or
the core followed by the n×n pruning stage. -/
def find_maxima_list (im : Image2D α) (boxsize : ℕ) : List (Cand2 α) :=
  if boxsize = 3 then maxima_3x3 im
  else maxima_nxn_prune im boxsize (maxima_3x3 im)

/-- The preallocated capacity `max_maxima = size(0)*size(1)/4` of the 2D
candidate buffer (Maxima.cpp:33). -/
def max_maxima2D (im : Image2D α) : ℕ := im.sizeX * im.sizeY / 4

/-- `Maxima2D::find_maxima` together with the capacity check of
`detect_maxima` (Maxima.cpp:46-58): each emission increments the count and
throws `LogicalError` when the count would exceed `max_maxima`, so the call
completes normally iff the 3×3 core emits at most `max_maxima` candidates
(the n×n stage only removes candidates and performs no further
`detect_maxima` call). -/
def find_maxima_checked (im : Image2D α) (boxsize : ℕ) :
    Except Unit (List (Cand2 α)) :=
  if max_maxima2D im < (maxima_3x3 im).length then Except.error ()
  else Except.ok (find_maxima_list im boxsize)

/-- The specification's strict-local-maximum predicate (spec §4.D): `(x,y)` is
a maximum for odd neighborhood size `B` iff its value strictly exceeds the
value at every other point of the axis-aligned box of half-width `(B-1)/2`
around it clipped to the image domain. -/
def specStrictMax2D (im : Image2D α) (B x y : ℕ) : Prop :=
  x < im.sizeX ∧ y < im.sizeY ∧
  ∀ i < im.sizeX, ∀ j < im.sizeY,
    (x ≤ i + (B-1)/2 ∧ i ≤ x + (B-1)/2 ∧ y ≤ j + (B-1)/2 ∧ j ≤ y + (B-1)/2 ∧
      (i, j) ≠ (x, y)) → im.val i j < im.val x y

instance (im : Image2D α) (B x y : ℕ) : Decidable (specStrictMax2D im B x y) := by
  unfold specStrictMax2D; infer_instance

/-- The soundness facts that hold for every candidate emitted by the interior
loop of `maxima_3x3`: the pixel is interior, the stored value is the pixel
value, it strictly dominates its right neighbor and all six neighbors in the
rows above and below, and it weakly dominates its left neighbor (only weakly:
after a non-decreasing run the left neighbor may tie, see `tieRunImage`). -/
def coreSound (im : Image2D α) (e : Cand2 α) : Prop :=
  1 ≤ e.1 ∧ e.1 + 1 < im.sizeX ∧ 1 ≤ e.2.1 ∧ e.2.1 + 1 < im.sizeY ∧
  e.2.2 = im.val e.1 e.2.1 ∧
  im.val (e.1+1) e.2.1 < e.2.2 ∧ im.val (e.1-1) e.2.1 ≤ e.2.2 ∧
  im.val (e.1-1) (e.2.1+1) < e.2.2 ∧ im.val e.1 (e.2.1+1) < e.2.2 ∧
  im.val (e.1+1) (e.2.1+1) < e.2.2 ∧
  im.val (e.1-1) (e.2.1-1) < e.2.2 ∧ im.val e.1 (e.2.1-1) < e.2.2 ∧
  im.val (e.1+1) (e.2.1-1) < e.2.2

/-- The soundness facts of every candidate emitted by `maxima_3x3_edges`: a
boundary pixel whose value strictly dominates every other pixel of its
clipped 3-neighborhood. -/
def edgeSound (im : Image2D α) (e : Cand2 α) : Prop :=
  e.1 < im.sizeX ∧ e.2.1 < im.sizeY ∧
  (e.1 = 0 ∨ e.1 = im.sizeX - 1 ∨ e.2.1 = 0 ∨ e.2.1 = im.sizeY - 1) ∧
  e.2.2 = im.val e.1 e.2.1 ∧
  ∀ i j, i < im.sizeX → j < im.sizeY → e.1 ≤ i + 1 → i ≤ e.1 + 1 →
    e.2.1 ≤ j + 1 → j ≤ e.2.1 + 1 → (i, j) ≠ (e.1, e.2.1) →
    im.val i j < e.2.2

/-- Two grid points at Chebyshev distance at least 2. -/
def farApart (p q : ℕ × ℕ) : Prop :=
  ¬ (p.1 ≤ q.1 + 1 ∧ q.1 ≤ p.1 + 1 ∧ p.2 ≤ q.2 + 1 ∧ q.2 ≤ p.2 + 1)

/-- The coordinates of a candidate. -/
def candPt (e : Cand2 α) : ℕ × ℕ := (e.1, e.2.1)

/-- The 2×2 block of a grid point. -/
def blockOf (p : ℕ × ℕ) : ℕ × ℕ := (p.1 / 2, p.2 / 2)

/-- A 3×3 image with four strict corner maxima: the 3×3 capacity is
`3*3/4 = 2`, so the edge enumeration alone overflows the candidate buffer. -/
def fourCornerImage : Image2D ℚ where
  sizeX := 3
  sizeY := 3
  val x y :=
    if x = 0 ∧ y = 0 then 5 else if x = 2 ∧ y = 0 then 6
    else if x = 0 ∧ y = 2 then 7 else if x = 2 ∧ y = 2 then 8 else 0

/-- A 4×4 all-zero image: an even-sided admissible input for the capacity
bound. -/
def flatImage4 : Image2D ℚ where
  sizeX := 4
  sizeY := 4
  val _ _ := 0

/-- The 5×5 image (values in `ℚ`) that separates the fast and slow 3×3
finders: a two-pixel plateau `im(1,1) = im(2,1) = 1` in an otherwise zero
image.  The run-following fast core enters the non-decreasing run at `(1,1)`,
exits at `(2,1)` and never re-checks the left neighbor, so it emits `(2,1)`
even though `im(1,1)` ties it. -/
def tieRunImage : Image2D ℚ where
  sizeX := 5
  sizeY := 5
  val x y := if (x = 1 ∨ x = 2) ∧ y = 1 then 1 else 0

/-- A volume for `Maxima3D` (`arma::Cube<FloatT>`), axis 0 fastest. -/
structure Image3D (α : Type) where
  sizeX : ℕ
  sizeY : ℕ
  sizeZ : ℕ
  val : ℕ → ℕ → ℕ → α

/-- A candidate maximum of `Maxima3D`. -/
abbrev Cand3 (α : Type) := ℕ × ℕ × ℕ × α

/-- The candidate-pruning predicate of `Maxima3D::maxima_nxn`
(Maxima.cpp:786-813) with half-width `k`.  The middle-column conditions
`max_z-1 <= z && z <= max_z+1` and `max_y-1 <= y && y <= max_y-1` are on
unsigned indices, hence unsatisfiable when `max_z = 0` resp. `max_y = 0`
(wraparound); this is made explicit with the `≠ 0` conjuncts.  In the
middle-column branch the C loop bound `x <= max_x-2` also wraps around when
`max_x ≤ 1` and then reads out of bounds; here the loop is modelled with the
truncated range `[x_lower, max_x-2]`, which is what the loop scans whenever
`max_x ≥ 2`. -/
def nxnKeep3D (im : Image3D α) (k : ℕ) (c : Cand3 α) : Bool :=
  let mx := c.1
  let my := c.2.1
  let mz := c.2.2.1
  let mv := c.2.2.2
  let xU := min (mx + k) (im.sizeX - 1)
  let xL := if mx ≤ k then 0 else mx - k
  let yU := min (my + k) (im.sizeY - 1)
  let yL := if my ≤ k then 0 else my - k
  let zU := min (mz + k) (im.sizeZ - 1)
  let zL := if mz ≤ k then 0 else mz - k
  (List.range' zL (zU + 1 - zL)).all fun z =>
    (List.range' yL (yU + 1 - yL)).all fun y =>
      if mz ≠ 0 ∧ mz - 1 ≤ z ∧ z ≤ mz + 1 ∧ my ≠ 0 ∧ my - 1 ≤ y ∧ y ≤ my - 1
      then
        ((List.range' xL (mx - 1 - xL)).all fun x =>
          decide (¬ mv < im.val x y z)) &&
        ((List.range' (mx+2) (xU + 1 - (mx+2))).all fun x =>
          decide (¬ mv < im.val x y z))
      else
        (List.range' xL (xU + 1 - xL)).all fun x => decide (¬ mv < im.val x y z)

/-- The pruning stage of `Maxima3D::maxima_nxn` (Maxima.cpp:776-819). -/
def maxima_nxn_prune3D (im : Image3D α) (filter_size : ℕ)
    (cands : List (Cand3 α)) : List (Cand3 α) :=
  cands.filter (nxnKeep3D im ((filter_size - 1) / 2))

/-- A maxima table as used by the `Boxxer2D`/`Boxxer3D` orchestrators: an
`nrows × N` coordinate matrix (kept as its list of columns) with the parallel
value vector.  `nrows` is carried explicitly because arma matrices keep their
row count even with zero columns. -/
structure MaximaTable (α : Type) where
  nrows : ℕ
  entries : List (List ℕ × α)

/-- A per-frame scaled image of `Boxxer2D` (`arma::Cube`, shape
`(sizeX, sizeY, nScales)`). -/
structure ScaledImage2D (α : Type) where
  sizeX : ℕ
  sizeY : ℕ
  nScales : ℕ
  val : ℕ → ℕ → ℕ → α

/-- A per-frame scaled image of `Boxxer3D` (shape
`(sizeX, sizeY, sizeZ, nScales)`). -/
structure ScaledImage3D (α : Type) where
  sizeX : ℕ
  sizeY : ℕ
  sizeZ : ℕ
  nScales : ℕ
  val : ℕ → ℕ → ℕ → ℕ → α

/-- The cross-scale rejection predicate of
`Boxxer2D::scaleSpaceFrameMaximaRefine` (Boxxer2D.cpp:178-196): a candidate
survives iff no cell of the box of half-width `delta` around its spatial
position, across every scale, clipped to the image domain, is strictly
larger.  The boundary branch clips each loop (`j < imsize && j <= mx+delta`);
the interior branch scans the unclipped box. -/
def scaleKeep2D (sim : ScaledImage2D α) (delta : ℕ) (e : List ℕ × α) : Bool :=
  let mx0 := e.1.getD 0 0
  let mx1 := e.1.getD 1 0
  let mxv := e.2
  if mx0 < delta ∨ sim.sizeX ≤ mx0 + delta ∨
     mx1 < delta ∨ sim.sizeY ≤ mx1 + delta then
    (List.range sim.nScales).all fun s =>
      (List.range' (if mx1 ≤ delta then 0 else mx1 - delta)
          (min sim.sizeY (mx1 + delta + 1) -
            (if mx1 ≤ delta then 0 else mx1 - delta))).all fun j =>
        (List.range' (if mx0 ≤ delta then 0 else mx0 - delta)
            (min sim.sizeX (mx0 + delta + 1) -
              (if mx0 ≤ delta then 0 else mx0 - delta))).all fun i =>
          decide (¬ mxv < sim.val i j s)
  else
    (List.range sim.nScales).all fun s =>
      (List.range' (mx1 - delta) (2*delta + 1)).all fun j =>
        (List.range' (mx0 - delta) (2*delta + 1)).all fun i =>
          decide (¬ mxv < sim.val i j s)

/-- `Boxxer2D::scaleSpaceFrameMaximaRefine` (Boxxer2D.cpp:166-206): filter the
candidate columns in order by `scaleKeep2D`; the row count of the table is
preserved (the `nNewMaxima == 0` branch calls `set_size(n_rows, 0)`). -/
def scaleSpaceFrameMaximaRefine2D (sim : ScaledImage2D α)
    (scale_neighborhood_size : ℕ) (t : MaximaTable α) : MaximaTable α :=
  { nrows := t.nrows
    entries := t.entries.filter (scaleKeep2D sim ((scale_neighborhood_size - 1) / 2)) }

/-- The cross-scale rejection predicate of
`Boxxer3D::scaleSpaceFrameMaximaRefine` (Boxxer3D.cpp:162-182). -/
def scaleKeep3D (sim : ScaledImage3D α) (delta : ℕ) (e : List ℕ × α) : Bool :=
  let mx0 := e.1.getD 0 0
  let mx1 := e.1.getD 1 0
  let mx2 := e.1.getD 2 0
  let mxv := e.2
  if mx0 < delta ∨ sim.sizeX ≤ mx0 + delta ∨
     mx1 < delta ∨ sim.sizeY ≤ mx1 + delta ∨
     mx2 < delta ∨ sim.sizeZ ≤ mx2 + delta then
    (List.range sim.nScales).all fun s =>
      (List.range' (if mx2 ≤ delta then 0 else mx2 - delta)
          (min sim.sizeZ (mx2 + delta + 1) -
            (if mx2 ≤ delta then 0 else mx2 - delta))).all fun k =>
        (List.range' (if mx1 ≤ delta then 0 else mx1 - delta)
            (min sim.sizeY (mx1 + delta + 1) -
              (if mx1 ≤ delta then 0 else mx1 - delta))).all fun j =>
          (List.range' (if mx0 ≤ delta then 0 else mx0 - delta)
              (min sim.sizeX (mx0 + delta + 1) -
                (if mx0 ≤ delta then 0 else mx0 - delta))).all fun i =>
            decide (¬ mxv < sim.val i j k s)
  else
    (List.range sim.nScales).all fun s =>
      (List.range' (mx2 - delta) (2*delta + 1)).all fun k =>
        (List.range' (mx1 - delta) (2*delta + 1)).all fun j =>
          (List.range' (mx0 - delta) (2*delta + 1)).all fun i =>
            decide (¬ mxv < sim.val i j k s)

/-- `Boxxer3D::scaleSpaceFrameMaximaRefine` (Boxxer3D.cpp:150-193).  Unlike
the 2D version this function has no guard for `nNewMaxima == 0`: its final
`new_maxima(span::all, span(0, nNewMaxima-1))` underflows on unsigned zero
and is an out-of-bounds arma span, modelled as `none`. -/
def scaleSpaceFrameMaximaRefine3D (sim : ScaledImage3D α)
    (scale_neighborhood_size : ℕ) (t : MaximaTable α) :
    Option (MaximaTable α) :=
  let kept := t.entries.filter (scaleKeep3D sim ((scale_neighborhood_size - 1) / 2))
  if kept.isEmpty then none else some { nrows := t.nrows, entries := kept }

/-- The error kinds of `BoxxerError.h` that the modelled operations raise. -/
inductive BoxxerErr : Type
  | parameterValue : BoxxerErr
  | parameterShape : BoxxerErr
  | logical : BoxxerErr
deriving DecidableEq

/-- The C expression `!_sigma_ratio` applied to a floating-point value:
logical negation yields `true` exactly for zero, and the `bool` then converts
to `1` or `0` for the comparison with `1`. -/
def cppNot (x : ℚ) : ℕ := if x = 0 then 1 else 0

/-- `DoGFilter2D::set_sigma_ratio` (GaussFilter.cpp:287-297) and its 3D twin
(GaussFilter.cpp:374-384): the guard is `if(!_sigma_ratio>1)`, which parses
as `(!_sigma_ratio) > 1` and is therefore never true; on the non-throwing
path the new ratio is stored and the kernels recomputed.  The value-relevant
result is the stored `sigma_ratio`.  The constructors
(GaussFilter.cpp:246,261,333,348) use the identical guard. -/
def DoG_set_sigma_ratio (ratio : ℚ) : Except BoxxerErr ℚ :=
  if 1 < cppNot ratio then Except.error BoxxerErr.parameterValue
  else Except.ok ratio

/-- `Boxxer2D::setDoGSigmaRatio` (Boxxer2D.cpp:41-50) and
`Boxxer3D::setDoGSigmaRatio` (Boxxer3D.cpp:40-49): ratios `<= 1` raise
`ParameterShapeError` (not `ParameterValueError`); otherwise the ratio is
stored. -/
def Boxxer_setDoGSigmaRatio (ratio : ℚ) : Except BoxxerErr ℚ :=
  if ratio ≤ 1 then Except.error BoxxerErr.parameterShape
  else Except.ok ratio

end Boxxer

namespace Boxxer

section FIR

variable {α : Type} [LinearOrderedField α]

/-- One output sample of `kernels::gaussFIR_1D_small`
(FilterKernels.cpp:56-68): enumerate `r ∈ [-hw, hw]`, skip offsets beyond
double mirroring (`x+r < -size` or `x+r >= 2*size`), and mirror negative and
overflowing indices.  The 2D and 3D `_small` axis variants repeat this loop
verbatim on each line of the array, so they are defined below by applying
this function along the corresponding axis. -/
def smallLine (L : ℕ) (d : ℕ → α) (hw : ℕ) (k : ℕ → α) (x : ℕ) : α :=
  (((List.range (2*hw+1)).map fun (j : ℕ) => (j:ℤ) - (hw:ℤ)).map fun r =>
    if (x:ℤ) + r < -(L:ℤ) ∨ 2*(L:ℤ) ≤ (x:ℤ) + r then 0
    else if (x:ℤ) + r < 0 then k r.natAbs * d (-(x:ℤ)-r-1).toNat
    else if (L:ℤ) ≤ (x:ℤ) + r then k r.natAbs * d (2*(L:ℤ)-r-(x:ℤ)-1).toNat
    else k r.natAbs * d ((x:ℤ)+r).toNat).sum

/-- One output sample of the fast path of `kernels::gaussFIR_1D`
(FilterKernels.cpp:19-52): the three regions (leading mirrored boundary,
interior, trailing mirrored boundary) of the sweep.  The strided 2D/3D fast
axis variants compute exactly these expressions along their axis. -/
def fastLine (L : ℕ) (d : ℕ → α) (hw : ℕ) (k : ℕ → α) (x : ℕ) : α :=
  if x < hw then
    k 0 * d x + (∑ r ∈ Finset.Icc 1 x, k r * (d (x-r) + d (x+r))) +
      ∑ r ∈ Finset.Icc (x+1) hw, k r * (d (x+r) + d (r-x-1))
  else if x < L - hw then
    k 0 * d x + ∑ r ∈ Finset.Icc 1 hw, k r * (d (x-r) + d (x+r))
  else
    k 0 * d x + (∑ r ∈ Finset.Icc 1 (L-x-1), k r * (d (x-r) + d (x+r))) +
      ∑ r ∈ Finset.Icc (L-x) hw, k r * (d (x-r) + d (2*L-r-x-1))

/-- `kernels::gaussFIR_1D` (FilterKernels.cpp:16-18): dispatch to the small
reference variant when the axis is no longer than the full kernel
(`size <= 2*hw+1`), otherwise run the fast three-region sweep.  All fast 2D
and 3D axis variants use this same dispatch condition on their axis length
before looping the fast kernel along the axis. -/
def firLine (L : ℕ) (d : ℕ → α) (hw : ℕ) (k : ℕ → α) (x : ℕ) : α :=
  if L ≤ 2*hw + 1 then smallLine L d hw k x else fastLine L d hw k x

/-- `kernels::gaussFIR_2Dx` (FilterKernels.cpp:203-221): filter every column
along axis 0; dispatches to `gaussFIR_2Dx_small` for short axes via
`firLine`. -/
def gaussFIR_2Dx (im : Image2D α) (hw : ℕ) (k : ℕ → α) : Image2D α :=
  { im with val := fun x y => firLine im.sizeX (fun i => im.val i y) hw k x }

/-- `kernels::gaussFIR_2Dy` (FilterKernels.cpp:404-443): filter every row
along axis 1; same structure with the roles of the axes exchanged. -/
def gaussFIR_2Dy (im : Image2D α) (hw : ℕ) (k : ℕ → α) : Image2D α :=
  { im with val := fun x y => firLine im.sizeY (fun j => im.val x j) hw k y }

/-- `kernels::gaussFIR_2Dx_small` (FilterKernels.cpp:257-278). -/
def gaussFIR_2Dx_small (im : Image2D α) (hw : ℕ) (k : ℕ → α) : Image2D α :=
  { im with val := fun x y => smallLine im.sizeX (fun i => im.val i y) hw k x }

/-- `kernels::gaussFIR_2Dy_small` (FilterKernels.cpp:280-300). -/
def gaussFIR_2Dy_small (im : Image2D α) (hw : ℕ) (k : ℕ → α) : Image2D α :=
  { im with val := fun x y => smallLine im.sizeY (fun j => im.val x j) hw k y }

/-- `kernels::gaussFIR_3Dx` (FilterKernels.cpp:466-481) with its `_small`
dispatch. -/
def gaussFIR_3Dx (im : Image3D α) (hw : ℕ) (k : ℕ → α) : Image3D α :=
  { im with val := fun x y z => firLine im.sizeX (fun i => im.val i y z) hw k x }

/-- `kernels::gaussFIR_3Dy` (FilterKernels.cpp:503-521) with its `_small`
dispatch; the long-axis path loops the raw 2D y-kernel over the slices. -/
def gaussFIR_3Dy (im : Image3D α) (hw : ℕ) (k : ℕ → α) : Image3D α :=
  { im with val := fun x y z => firLine im.sizeY (fun j => im.val x j z) hw k y }

/-- `kernels::gaussFIR_3Dz` (FilterKernels.cpp:543-574) with its `_small`
dispatch. -/
def gaussFIR_3Dz (im : Image3D α) (hw : ℕ) (k : ℕ → α) : Image3D α :=
  { im with val := fun x y z => firLine im.sizeZ (fun l => im.val x y l) hw k z }

/-- `kernels::gaussFIR_3Dx_small` (FilterKernels.cpp:446-464). -/
def gaussFIR_3Dx_small (im : Image3D α) (hw : ℕ) (k : ℕ → α) : Image3D α :=
  { im with val := fun x y z => smallLine im.sizeX (fun i => im.val i y z) hw k x }

/-- `kernels::gaussFIR_3Dy_small` (FilterKernels.cpp:483-501). -/
def gaussFIR_3Dy_small (im : Image3D α) (hw : ℕ) (k : ℕ → α) : Image3D α :=
  { im with val := fun x y z => smallLine im.sizeY (fun j => im.val x j z) hw k y }

/-- `kernels::gaussFIR_3Dz_small` (FilterKernels.cpp:523-541). -/
def gaussFIR_3Dz_small (im : Image3D α) (hw : ℕ) (k : ℕ → α) : Image3D α :=
  { im with val := fun x y z => smallLine im.sizeZ (fun l => im.val x y l) hw k z }

/-- The specification's mirror map `reflected(i) = i < 0 ? -i-1 :
(i >= L ? 2L-i-1 : i)` (spec §4.B). -/
def mirrorIdx (L : ℕ) (i : ℤ) : ℤ :=
  if i < 0 then -i-1 else if (L:ℤ) ≤ i then 2*(L:ℤ)-i-1 else i

/-- The specification's formula for one output sample of the reference
axis-FIR pass (spec §4.B): sum of `kernel[|r|]·in[m(x+r)]` over all
`r ∈ [-hw, hw]` with `-L ≤ x+r < 2L`. -/
def mirrorSum (L : ℕ) (d : ℕ → α) (hw : ℕ) (k : ℕ → α) (x : ℕ) : α :=
  ∑ r ∈ Finset.Icc (-(hw:ℤ)) (hw:ℤ),
    if -(L:ℤ) ≤ (x:ℤ) + r ∧ (x:ℤ) + r < 2*(L:ℤ) then
      k r.natAbs * d (mirrorIdx L ((x:ℤ)+r)).toNat
    else 0

end FIR

section Kernels

/-- The binary64 machine epsilon, the unit of the spec's `4·ε` tolerance. -/
noncomputable def machineEps : ℝ := (2:ℝ)^(-52 : ℤ)

/-- The normalizer computed by `GaussFIRFilter::compute_Gauss_FIR_kernel`
(GaussFilter.cpp:56-62): `sum` starts at `kernel(0) = 1` and accumulates
`2*exp(r*r*exp_norm)` for `r = 1..hw`, with `exp_norm = -0.5/(sigma*sigma)`. -/
noncomputable def gaussKernelSum (sigma : ℝ) (hw : ℕ) : ℝ :=
  1 + ∑ r ∈ Finset.Icc 1 hw, 2 * Real.exp ((r:ℝ) * r * (-(1/2) / (sigma * sigma)))

/-- `GaussFIRFilter::compute_Gauss_FIR_kernel` (GaussFilter.cpp:49-65): the
`hw+1` half-kernel coefficients `exp(r*r*exp_norm)` (with `kernel(0) = 1`),
divided by the accumulated sum. -/
noncomputable def compute_Gauss_FIR_kernel (sigma : ℝ) (hw : ℕ) : List ℝ :=
  (List.range (hw+1)).map fun (r : ℕ) =>
    (if r = 0 then 1 else Real.exp ((r:ℝ) * (r:ℝ) * (-(1/2) / (sigma * sigma)))) /
      gaussKernelSum sigma hw

/-- `GaussFIRFilter::compute_LoG_FIR_kernel` (GaussFilter.cpp:68-87): with
`sigmanorm = 1/sigma^2`, `norm = sigmanorm/sqrt(2*pi)` and
`exp_norm = -0.5*sigmanorm`, the coefficients are `norm` at 0 and
`norm*(1-r^2*sigmanorm)*exp(r^2*exp_norm)` otherwise; the zero-sum
re-centering branch is disabled in the source. -/
noncomputable def compute_LoG_FIR_kernel (sigma : ℝ) (hw : ℕ) : List ℝ :=
  (List.range (hw+1)).map fun (r : ℕ) =>
    if r = 0 then (1/(sigma*sigma)) / Real.sqrt (2 * Real.pi)
    else ((1/(sigma*sigma)) / Real.sqrt (2 * Real.pi)) *
      (1 - (r:ℝ) * (r:ℝ) * (1/(sigma*sigma))) *
      Real.exp ((r:ℝ) * (r:ℝ) * (-(1/2) * (1/(sigma*sigma))))

/-- View a stored half-kernel vector as the indexing function used by the
axis kernels (`kernel[r]` for `r ≤ hw`). -/
def kernelFun (l : List ℝ) : ℕ → ℝ := fun r => l.getD r 0

end Kernels

section Filters

/-- `GaussFilter2D::filter` (GaussFilter.cpp:126-131): the x-pass with the
axis-0 Gaussian kernel into the scratch image, then the y-pass with the
axis-1 kernel.  The kernels are those computed by `set_kernel_hw`
(GaussFilter.cpp:112-123) from the per-axis `sigma` and half-widths. -/
noncomputable def GaussFilter2D_filter (sigma0 sigma1 : ℝ) (hw0 hw1 : ℕ)
    (im : Image2D ℝ) : Image2D ℝ :=
  gaussFIR_2Dy
    (gaussFIR_2Dx im hw0 (kernelFun (compute_Gauss_FIR_kernel sigma0 hw0)))
    hw1 (kernelFun (compute_Gauss_FIR_kernel sigma1 hw1))

/-- `GaussFilter3D::filter` (GaussFilter.cpp:200-206): x-, y-, then z-pass
with the per-axis Gaussian kernels. -/
noncomputable def GaussFilter3D_filter (sigma0 sigma1 sigma2 : ℝ)
    (hw0 hw1 hw2 : ℕ) (im : Image3D ℝ) : Image3D ℝ :=
  gaussFIR_3Dz
    (gaussFIR_3Dy
      (gaussFIR_3Dx im hw0 (kernelFun (compute_Gauss_FIR_kernel sigma0 hw0)))
      hw1 (kernelFun (compute_Gauss_FIR_kernel sigma1 hw1)))
    hw2 (kernelFun (compute_Gauss_FIR_kernel sigma2 hw2))

/-- Pointwise image sum, modelling the accumulating `out += temp` of the LoG
filters. -/
def addImage2D (a b : Image2D ℝ) : Image2D ℝ :=
  { a with val := fun x y => a.val x y + b.val x y }

/-- `LoGFilter2D::filter` (GaussFilter.cpp:459-476):
`Gx(LoGy(im)) + LoGx(Gy(im))` with the Gaussian and LoG half-kernels of
`LoGFilter2D::set_kernel_hw` (GaussFilter.cpp:442-455). -/
noncomputable def LoGFilter2D_filter (sigma0 sigma1 : ℝ) (hw0 hw1 : ℕ)
    (im : Image2D ℝ) : Image2D ℝ :=
  addImage2D
    (gaussFIR_2Dx
      (gaussFIR_2Dy im hw1 (kernelFun (compute_LoG_FIR_kernel sigma1 hw1)))
      hw0 (kernelFun (compute_Gauss_FIR_kernel sigma0 hw0)))
    (gaussFIR_2Dx
      (gaussFIR_2Dy im hw1 (kernelFun (compute_Gauss_FIR_kernel sigma1 hw1)))
      hw0 (kernelFun (compute_LoG_FIR_kernel sigma0 hw0)))

/-- Pointwise image difference, modelling `out -= temp_im0` of the DoG
filters. -/
def subImage2D (a b : Image2D ℝ) : Image2D ℝ :=
  { a with val := fun x y => a.val x y - b.val x y }

/-- `DoGFilter2D::filter` (GaussFilter.cpp:299-308): the separable Gaussian
at `sigma` minus the separable Gaussian at `sigma*sigma_ratio`, sharing the
per-axis half-widths. -/
noncomputable def DoGFilter2D_filter (sigma0 sigma1 sr : ℝ) (hw0 hw1 : ℕ)
    (im : Image2D ℝ) : Image2D ℝ :=
  subImage2D (GaussFilter2D_filter sigma0 sigma1 hw0 hw1 im)
    (GaussFilter2D_filter (sigma0*sr) (sigma1*sr) hw0 hw1 im)

end Filters

section Orchestrator

variable {α : Type} [LinearOrder α]

/-- The maxima table produced by `Maxima2D::find_maxima(im, maxima_out,
max_vals_out)` (Maxima.cpp:60-79): `read_maxima` sizes the coordinate matrix
`Ndim × Nmaxima` with `Ndim = 2` and copies the detected columns. -/
def find_maxima_table (im : Image2D α) (boxsize : ℕ) : MaximaTable α :=
  { nrows := 2
    entries := (find_maxima_list im boxsize).map fun e => ([e.1, e.2.1], e.2.2) }

/-- `Boxxer2D::combine_maxima` (Boxxer2D.cpp:289-310), also used by
`Boxxer3D`: the output matrix has `nrows+1` rows where `nrows` is the row
count of the first input table; the per-table columns are copied in order
and the final row of each block is filled with the table's index `n`. -/
def combine_maxima (tables : List (MaximaTable α)) : MaximaTable α :=
  { nrows := (tables.headD { nrows := 0, entries := [] }).nrows + 1
    entries := tables.enum.flatMap fun nt =>
      nt.2.entries.map fun e => (e.1 ++ [nt.1], e.2) }

/-- One scale slice `sim.slice(s)` of a 2D scaled image. -/
def scaledSlice2D (sim : ScaledImage2D α) (s : ℕ) : Image2D α :=
  { sizeX := sim.sizeX, sizeY := sim.sizeY, val := fun x y => sim.val x y s }

/-- `Boxxer2D::scaleSpaceFrameMaxima` (Boxxer2D.cpp:150-161): per-scale
maxima tables, combined (appending the scale index row), then refined by
cross-scale rejection. -/
def scaleSpaceFrameMaxima2D (sim : ScaledImage2D α)
    (neighborhood_size scale_neighborhood_size : ℕ) : MaximaTable α :=
  scaleSpaceFrameMaximaRefine2D sim scale_neighborhood_size
    (combine_maxima ((List.range sim.nScales).map fun s =>
      find_maxima_table (scaledSlice2D sim s) neighborhood_size))

/-- The maxima table written by `Maxima3D::read_maxima` (Maxima.cpp:361-370):
always a `3 × Nmaxima` coordinate matrix.  The emission list of the 3D
finder is taken as a parameter where needed; only this fixed 3-row shape
matters for the table-layout claims. -/
def find_maxima_table3D (cands : List (Cand3 α)) : MaximaTable α :=
  { nrows := 3
    entries := cands.map fun e => ([e.1, e.2.1, e.2.2.1], e.2.2.2) }

/-- One scale slice of a 3D scaled image. -/
def scaledSlice3D (sim : ScaledImage3D α) (s : ℕ) : Image3D α :=
  { sizeX := sim.sizeX, sizeY := sim.sizeY, sizeZ := sim.sizeZ
    val := fun x y z => sim.val x y z s }

/-- `Boxxer3D::scaleSpaceFrameMaxima` (Boxxer3D.cpp:134-145), parametric in
the per-scale 3D finder emission list `find`. -/
def scaleSpaceFrameMaxima3D (sim : ScaledImage3D α)
    (find : Image3D α → List (Cand3 α))
    (scale_neighborhood_size : ℕ) : Option (MaximaTable α) :=
  scaleSpaceFrameMaximaRefine3D sim scale_neighborhood_size
    (combine_maxima ((List.range sim.nScales).map fun s =>
      find_maxima_table3D (find (scaledSlice3D sim s))))

/-- The per-frame loop and final combination of
`Boxxer3D::scaleSpaceLoGMaxima`/`scaleSpaceDoGMaxima` (Boxxer3D.cpp:83-129),
over the per-frame scaled images: a failure in any frame propagates (the
worker exception is rethrown after the join), otherwise the per-frame
tables are combined with the frame-index row appended. -/
def scaleSpaceMaxima3D (sims : List (ScaledImage3D α))
    (find : Image3D α → List (Cand3 α))
    (scale_neighborhood_size : ℕ) : Option (MaximaTable α) :=
  (sims.mapM fun sim => scaleSpaceFrameMaxima3D sim find
    scale_neighborhood_size).map combine_maxima

end Orchestrator

section Orchestrator2D

/-- The scaled image of one frame as filled by the per-scale loop of
`Boxxer2D::scaleSpaceLoGMaxima` (Boxxer2D.cpp:106-113): slice `s` holds the
LoG response at the `s`-th sigma column.  Per-axis kernel half-widths follow
the default `hw = ceil(default_sigma_hw_ratio * sigma)` of the
`LoGFilter2D` constructor (GaussFilter.cpp:422-430); the ratio constant is
declared but not defined under `src/`, so it is a parameter `hwRatio`
here. -/
noncomputable def LoGScaledImage2D (hwRatio : ℝ) (sigma : List (ℝ × ℝ))
    (f : Image2D ℝ) : ScaledImage2D ℝ :=
  { sizeX := f.sizeX, sizeY := f.sizeY, nScales := sigma.length
    val := fun x y s =>
      (LoGFilter2D_filter (sigma.getD s (1,1)).1 (sigma.getD s (1,1)).2
        (⌈hwRatio * (sigma.getD s (1,1)).1⌉₊)
        (⌈hwRatio * (sigma.getD s (1,1)).2⌉₊) f).val x y }

/-- `Boxxer2D::scaleSpaceLoGMaxima` (Boxxer2D.cpp:96-119): per frame, filter
at every scale, extract and refine per-frame maxima, then combine the
per-frame tables appending the frame-index row. -/
noncomputable def scaleSpaceLoGMaxima2D (hwRatio : ℝ) (sigma : List (ℝ × ℝ))
    (frames : List (Image2D ℝ))
    (neighborhood_size scale_neighborhood_size : ℕ) : MaximaTable ℝ :=
  combine_maxima (frames.map fun f =>
    scaleSpaceFrameMaxima2D (LoGScaledImage2D hwRatio sigma f)
      neighborhood_size scale_neighborhood_size)

/-- The per-frame scaled DoG image of `Boxxer2D::scaleSpaceDoGMaxima`
(Boxxer2D.cpp:131-137). -/
noncomputable def DoGScaledImage2D (hwRatio sr : ℝ) (sigma : List (ℝ × ℝ))
    (f : Image2D ℝ) : ScaledImage2D ℝ :=
  { sizeX := f.sizeX, sizeY := f.sizeY, nScales := sigma.length
    val := fun x y s =>
      (DoGFilter2D_filter (sigma.getD s (1,1)).1 (sigma.getD s (1,1)).2 sr
        (⌈hwRatio * (sigma.getD s (1,1)).1⌉₊)
        (⌈hwRatio * (sigma.getD s (1,1)).2⌉₊) f).val x y }

/-- `Boxxer2D::scaleSpaceDoGMaxima` (Boxxer2D.cpp:121-144). -/
noncomputable def scaleSpaceDoGMaxima2D (hwRatio sr : ℝ)
    (sigma : List (ℝ × ℝ)) (frames : List (Image2D ℝ))
    (neighborhood_size scale_neighborhood_size : ℕ) : MaximaTable ℝ :=
  combine_maxima (frames.map fun f =>
    scaleSpaceFrameMaxima2D (DoGScaledImage2D hwRatio sr sigma f)
      neighborhood_size scale_neighborhood_size)

end Orchestrator2D

end Boxxer


namespace Boxxer

section FIRLemmas

variable {α : Type} [LinearOrderedField α]

/-- Summing a function mapped over `List.range` is the `Finset.range` sum. -/
theorem sum_map_list_range (n : ℕ) (f : ℕ → α) :
    ((List.range n).map f).sum = ∑ j ∈ Finset.range n, f j := by
  induction n with
  | zero => simp
  | succ n ih => rw [List.range_succ, Finset.sum_range_succ, List.map_append,
      List.sum_append, ih]; simp

/-- The interval `[-hw, hw]` of offsets, reindexed by `List.range (2*hw+1)`. -/
theorem icc_eq_map_range (hw : ℕ) :
    Finset.Icc (-(hw:ℤ)) (hw:ℤ) =
      (Finset.range (2*hw+1)).image fun (j : ℕ) => (j:ℤ) - (hw:ℤ) := by
  ext z
  simp only [Finset.mem_Icc, Finset.mem_image, Finset.mem_range]
  constructor
  · intro hz
    exact ⟨(z + hw).toNat, by omega, by omega⟩
  · rintro ⟨j, hj, rfl⟩
    omega

/-- The reference small FIR loop computes the specification's mirror-sum
formula. -/
theorem smallLine_eq_mirrorSum (L : ℕ) (d : ℕ → α) (hw : ℕ) (k : ℕ → α)
    (x : ℕ) : smallLine L d hw k x = mirrorSum L d hw k x := by
  unfold smallLine mirrorSum
  rw [List.map_map, sum_map_list_range, icc_eq_map_range,
    Finset.sum_image (by intro a _ b _ h; omega)]
  refine Finset.sum_congr rfl fun j hj => ?_
  simp only [Function.comp_apply, mirrorIdx]
  split_ifs <;> first
    | rfl
    | (exfalso; omega)
    | (congr 2; omega)

/-- The small FIR loop accumulates only products of kernel coefficients with
in-bounds samples, so it preserves non-negativity. -/
theorem smallLine_nonneg {L : ℕ} {d : ℕ → α} {hw : ℕ} {k : ℕ → α} {x : ℕ}
    (hd : ∀ i < L, 0 ≤ d i) (hk : ∀ r, 0 ≤ k r) :
    0 ≤ smallLine L d hw k x := by
  apply List.sum_nonneg
  intro a ha
  simp only [List.map_map, List.mem_map, List.mem_range] at ha
  obtain ⟨j, _, rfl⟩ := ha
  simp only [Function.comp_apply]
  split_ifs with h1 h2 h3 <;>
    first
      | exact le_refl 0
      | exact mul_nonneg (hk _) (hd _ (by omega))

/-- The fast three-region FIR sweep preserves non-negativity on in-bounds
outputs when the axis is longer than the full kernel. -/
theorem fastLine_nonneg {L : ℕ} {d : ℕ → α} {hw : ℕ} {k : ℕ → α} {x : ℕ}
    (hL : 2*hw + 1 < L) (hx : x < L)
    (hd : ∀ i < L, 0 ≤ d i) (hk : ∀ r, 0 ≤ k r) :
    0 ≤ fastLine L d hw k x := by
  unfold fastLine
  split_ifs with h1 h2
  · refine add_nonneg (add_nonneg (mul_nonneg (hk 0) (hd _ (by omega))) ?_) ?_
    all_goals refine Finset.sum_nonneg fun r hr => ?_
    all_goals simp only [Finset.mem_Icc] at hr
    all_goals exact mul_nonneg (hk r) (add_nonneg (hd _ (by omega)) (hd _ (by omega)))
  · refine add_nonneg (mul_nonneg (hk 0) (hd _ hx)) ?_
    refine Finset.sum_nonneg fun r hr => ?_
    simp only [Finset.mem_Icc] at hr
    exact mul_nonneg (hk r) (add_nonneg (hd _ (by omega)) (hd _ (by omega)))
  · refine add_nonneg (add_nonneg (mul_nonneg (hk 0) (hd _ hx)) ?_) ?_
    all_goals refine Finset.sum_nonneg fun r hr => ?_
    all_goals simp only [Finset.mem_Icc] at hr
    all_goals exact mul_nonneg (hk r) (add_nonneg (hd _ (by omega)) (hd _ (by omega)))

/-- The dispatched axis kernel preserves non-negativity on in-bounds
outputs. -/
theorem firLine_nonneg {L : ℕ} {d : ℕ → α} {hw : ℕ} {k : ℕ → α} {x : ℕ}
    (hx : x < L) (hd : ∀ i < L, 0 ≤ d i) (hk : ∀ r, 0 ≤ k r) :
    0 ≤ firLine L d hw k x := by
  unfold firLine
  split_ifs with h
  · exact smallLine_nonneg hd hk
  · exact fastLine_nonneg (by omega) hx hd hk

/-- Indexing a mapped range list with a default. -/
theorem getD_map_range {β : Type} (n r : ℕ) (f : ℕ → β) (z : β) :
    ((List.range n).map f).getD r z = if r < n then f r else z := by
  split_ifs with h
  · rw [List.getD_eq_getElem?_getD]
    simp [List.getElem?_map, List.getElem?_range h]
  · rw [List.getD_eq_getElem?_getD, List.getElem?_eq_none (by simpa using h)]
    rfl

/-- The accumulated kernel normalizer is positive. -/
theorem gaussKernelSum_pos (sigma : ℝ) (hw : ℕ) : 0 < gaussKernelSum sigma hw := by
  unfold gaussKernelSum
  have h : 0 ≤ ∑ r ∈ Finset.Icc 1 hw, 2 * Real.exp ((r:ℝ) * r * (-(1/2) / (sigma * sigma))) :=
    Finset.sum_nonneg fun r _ => by positivity
  linarith

/-- Every stored Gaussian half-kernel coefficient is non-negative (over the
reals: each is a positive exponential divided by the positive normalizer,
and out-of-range indices read the default 0). -/
theorem gauss_kernelFun_nonneg (sigma : ℝ) (hw : ℕ) (r : ℕ) :
    0 ≤ kernelFun (compute_Gauss_FIR_kernel sigma hw) r := by
  unfold kernelFun compute_Gauss_FIR_kernel
  rw [getD_map_range]
  split_ifs with h h0
  · exact div_nonneg (by norm_num) (gaussKernelSum_pos sigma hw).le
  · exact div_nonneg (Real.exp_pos _).le (gaussKernelSum_pos sigma hw).le
  · exact le_refl 0

end FIRLemmas

end Boxxer

namespace Boxxer

section OrchestratorLemmas

variable {α : Type} [LinearOrder α]

/-- The optional head of a range list. -/
theorem head?_range (n : ℕ) :
    (List.range n).head? = if n = 0 then none else some 0 := by
  cases n with
  | zero => simp
  | succ m => simp [List.range_succ_eq_map]

/-- Membership in a combined maxima table: a column of block `n` with the
index `n` appended as the extra row. -/
theorem combine_maxima_mem {ts : List (MaximaTable α)} {e : List ℕ × α} :
    e ∈ (combine_maxima ts).entries ↔
      ∃ n, ∃ hn : n < ts.length, ∃ c v,
        e = (c ++ [n], v) ∧ (c, v) ∈ ts[n].entries := by
  simp only [combine_maxima, List.mem_flatMap, List.mem_map]
  constructor
  · rintro ⟨⟨n, t⟩, hnt, ⟨c, v⟩, hcv, rfl⟩
    rw [List.mem_enum_iff_getElem?] at hnt
    have hn : n < ts.length := by
      by_contra hcon
      rw [List.getElem?_eq_none (by omega)] at hnt
      exact Option.noConfusion hnt
    refine ⟨n, hn, c, v, rfl, ?_⟩
    rw [List.getElem?_eq_getElem hn, Option.some_inj] at hnt
    rw [hnt]
    exact hcv
  · rintro ⟨n, hn, c, v, rfl, hcv⟩
    refine ⟨(n, ts[n]), ?_, ⟨(c, v), hcv, rfl⟩⟩
    rw [List.mem_enum_iff_getElem?, List.getElem?_eq_getElem hn]

/-- With at least one scale, a 2D per-frame table has 3 rows
(`[x, y, scale]`). -/
theorem frame2D_nrows (sim : ScaledImage2D α) (nb snb : ℕ)
    (h : sim.nScales ≠ 0) :
    (scaleSpaceFrameMaxima2D sim nb snb).nrows = 3 := by
  simp [scaleSpaceFrameMaxima2D, scaleSpaceFrameMaximaRefine2D, combine_maxima,
    head?_range, h, find_maxima_table]

/-- Every column of a 2D per-frame table has 3 coordinate entries, the last
being its scale index. -/
theorem frame2D_entry_len {sim : ScaledImage2D α} {nb snb : ℕ}
    {e : List ℕ × α}
    (he : e ∈ (scaleSpaceFrameMaxima2D sim nb snb).entries) :
    e.1.length = 3 := by
  unfold scaleSpaceFrameMaxima2D scaleSpaceFrameMaximaRefine2D at he
  simp only [List.mem_filter] at he
  obtain ⟨n, hn, c, v, rfl, hcv⟩ := combine_maxima_mem.mp he.1
  rw [List.getElem_map] at hcv
  simp only [find_maxima_table, List.mem_map] at hcv
  obtain ⟨a, _, hfa⟩ := hcv
  have hc := congrArg Prod.fst hfa
  simp only at hc
  rw [← hc]
  simp

/-- A successful 3D per-frame table has 4 rows (`[x, y, z, scale]`) when
there is at least one scale, and every column has 4 coordinate entries. -/
theorem frame3D_shape {sim : ScaledImage3D α}
    {find : Image3D α → List (Cand3 α)} {snb : ℕ} {t : MaximaTable α}
    (h : scaleSpaceFrameMaxima3D sim find snb = some t) :
    (sim.nScales ≠ 0 → t.nrows = 4) ∧ ∀ e ∈ t.entries, e.1.length = 4 := by
  unfold scaleSpaceFrameMaxima3D scaleSpaceFrameMaximaRefine3D at h
  by_cases hk : (List.filter (scaleKeep3D sim ((snb - 1) / 2))
      (combine_maxima ((List.range sim.nScales).map fun s =>
        find_maxima_table3D (find (scaledSlice3D sim s)))).entries).isEmpty
  · simp [hk] at h
  · simp only [hk, Bool.false_eq_true, not_false_eq_true, if_false,
      Option.some.injEq] at h
    subst h
    constructor
    · intro hns
      show (combine_maxima _).nrows = 4
      simp [combine_maxima, head?_range, hns, find_maxima_table3D]
    · intro e he
      have hm := (List.mem_filter.mp he).1
      obtain ⟨n, hn, c, v, rfl, hcv⟩ := combine_maxima_mem.mp hm
      rw [List.getElem_map] at hcv
      simp only [find_maxima_table3D, List.mem_map] at hcv
      obtain ⟨a, _, hfa⟩ := hcv
      have hc := congrArg Prod.fst hfa
      simp only at hc
      rw [← hc]
      simp

/-- Elementwise specification of a successful `List.mapM` over `Option`. -/
theorem mapM_option_spec {β γ : Type} (f : β → Option γ) :
    ∀ (l : List β) (res : List γ), l.mapM f = some res →
      res.length = l.length ∧
        ∀ n (hn : n < l.length) (hn2 : n < res.length),
          f l[n] = some res[n] := by
  intro l
  induction l with
  | nil => intro res h; simp only [List.mapM_nil, Option.pure_def,
      Option.some_inj] at h; subst h; exact ⟨rfl, fun n hn hn2 => by simp at hn⟩
  | cons a l ih =>
    intro res h
    rw [List.mapM_cons] at h
    simp only [Option.pure_def, Option.bind_eq_bind, Option.bind_eq_some,
      Option.some_inj] at h
    obtain ⟨b, hb, bs, hbs, rfl⟩ := h
    obtain ⟨hlen, helem⟩ := ih bs hbs
    refine ⟨by simp [hlen], ?_⟩
    intro n hn hn2
    cases n with
    | zero => simpa using hb
    | succ m =>
      simp only [List.getElem_cons_succ]
      exact helem m (by simpa using hn) (by simpa using hn2)

end OrchestratorLemmas

end Boxxer

namespace Boxxer

section MaximaCountLemmas

variable {α : Type} [LinearOrder α]

/-- Membership in an edge-scan guard yields the candidate and all its
strict-dominance facts. -/
theorem edgeScanGuard_mem {im : Image2D α} {x y : ℕ} {nbrs : List (ℕ × ℕ)}
    {e : Cand2 α} (he : e ∈ edgeScanGuard im x y nbrs) :
    e = (x, y, im.val x y) ∧ ∀ q ∈ nbrs, im.val q.1 q.2 < im.val x y := by
  unfold edgeScanGuard at he
  split_ifs at he with h
  · simp only [List.mem_singleton] at he
    exact ⟨he, h⟩
  · simp at he

/-- The run-following loop strictly advances. -/
theorem follow_gt (im : Image2D α) (y : ℕ) :
    ∀ fuel x, x < follow im y fuel x := by
  intro fuel
  induction fuel with
  | zero => intro x; simp [follow]
  | succ n ih =>
    intro x
    simp only [follow]
    split_ifs with h
    · exact lt_trans (by omega) (ih (x+1))
    · omega

/-- At the exit of a run entered with a non-decreasing step, the left
neighbor of the exit pixel is `≤` the exit pixel (the run invariant; note it
need not be strict). -/
theorem follow_left_le (im : Image2D α) (y : ℕ) :
    ∀ fuel x, im.val x y ≤ im.val (x+1) y →
      im.val (follow im y fuel x - 1) y ≤ im.val (follow im y fuel x) y := by
  intro fuel
  induction fuel with
  | zero => intro x h; simpa [follow] using h
  | succ n ih =>
    intro x h
    simp only [follow]
    split_ifs with hc
    · exact ih (x+1) hc.2
    · simpa using h

/-- With enough fuel, the run exits either at the row end or at a strict
drop. -/
theorem follow_exit (im : Image2D α) (y : ℕ) :
    ∀ fuel x, im.sizeX ≤ fuel + x →
      im.sizeX - 1 ≤ follow im y fuel x ∨
        im.val (follow im y fuel x + 1) y < im.val (follow im y fuel x) y := by
  intro fuel
  induction fuel with
  | zero =>
    intro x h
    left
    simp only [follow]
    omega
  | succ n ih =>
    intro x h
    simp only [follow]
    split_ifs with hc
    · exact ih (x+1) (by omega)
    · rcases not_and_or.mp hc with h1 | h2
      · left; omega
      · right; exact lt_of_not_le h2

/-- A successful `checkEmit` describes its emission and certifies all six
strict checks of the rows above and below. -/
theorem checkEmit_some {im : Image2D α} {y x : ℕ} {skip skipNext : List Bool}
    {e : Cand2 α} (h : (checkEmit im y x skip skipNext).1 = some e) :
    e = (x, y, im.val x y) ∧
    im.val (x-1) (y+1) < im.val x y ∧ im.val x (y+1) < im.val x y ∧
    im.val (x+1) (y+1) < im.val x y ∧
    im.val (x-1) (y-1) < im.val x y ∧ im.val x (y-1) < im.val x y ∧
    im.val (x+1) (y-1) < im.val x y := by
  simp only [checkEmit] at h
  split_ifs at h with h1 h2 h3 h4 <;>
    simp only [Option.some.injEq, reduceCtorEq] at h
  push_neg at h4
  exact ⟨h.symm, lt_of_not_le h1, lt_of_not_le h2, lt_of_not_le h3,
    h4.1, h4.2.1, h4.2.2⟩

/-- Every emission of the interior row loop carries row `y`, its pixel value,
a position at or right of the scan start with its right neighbor inside the
image, and the full set of dominance facts: strict over the right neighbor
and the six pixels of the rows above and below, weak over the left
neighbor. -/
theorem rowLoop_row_facts (im : Image2D α) (y : ℕ) :
    ∀ fuel x skip skipNext, ∀ e ∈ (rowLoop im y fuel x skip skipNext).1,
      e.2.1 = y ∧ e.2.2 = im.val e.1 e.2.1 ∧ x ≤ e.1 ∧ e.1 + 1 < im.sizeX ∧
      im.val (e.1+1) e.2.1 < e.2.2 ∧ im.val (e.1-1) e.2.1 ≤ e.2.2 ∧
      im.val (e.1-1) (e.2.1+1) < e.2.2 ∧ im.val e.1 (e.2.1+1) < e.2.2 ∧
      im.val (e.1+1) (e.2.1+1) < e.2.2 ∧
      im.val (e.1-1) (e.2.1-1) < e.2.2 ∧ im.val e.1 (e.2.1-1) < e.2.2 ∧
      im.val (e.1+1) (e.2.1-1) < e.2.2 := by
  intro fuel
  induction fuel with
  | zero => intro x s sn e he; simp [rowLoop] at he
  | succ n ih =>
    intro x s sn e he
    simp only [rowLoop] at he
    split_ifs at he with h1 h2 h3 h4 h5
    · obtain ⟨hy, hv, hx, hr⟩ := ih (x+1) s sn e he
      exact ⟨hy, hv, by omega, hr⟩
    · exact (List.not_mem_nil e (by simpa using he)).elim
    · simp only [List.mem_append, Option.mem_toList, Option.mem_def] at he
      rcases he with he | he
      · obtain ⟨he1, c3, c4, c5, c6, c7, c8⟩ := checkEmit_some he
        subst he1
        dsimp only
        have hgt := follow_gt im y im.sizeX x
        have hle := follow_left_le im y im.sizeX x h3
        have hexit := follow_exit im y im.sizeX x (by omega)
        refine ⟨rfl, rfl, by omega, by omega, ?_, hle, c3, c4, c5, c6, c7, c8⟩
        rcases hexit with h | h
        · omega
        · exact h
      · obtain ⟨hy, hv, hx, hr⟩ :=
          ih (follow im y im.sizeX x + 1) _ _ e he
        have hgt := follow_gt im y im.sizeX x
        exact ⟨hy, hv, by omega, hr⟩
    · obtain ⟨hy, hv, hx, hr⟩ := ih (x+1) s sn e he
      exact ⟨hy, hv, by omega, hr⟩
    · simp only [List.mem_append, Option.mem_toList, Option.mem_def] at he
      rcases he with he | he
      · obtain ⟨he1, c3, c4, c5, c6, c7, c8⟩ := checkEmit_some he
        subst he1
        dsimp only
        exact ⟨rfl, rfl, le_refl x, by omega, lt_of_not_le h3,
          (lt_of_not_le h5).le, c3, c4, c5, c6, c7, c8⟩
      · obtain ⟨hy, hv, hx, hr⟩ := ih (x+1) _ _ e he
        exact ⟨hy, hv, by omega, hr⟩
    · exact (List.not_mem_nil e (by simpa using he)).elim

/-- The row loop emits candidates at strictly increasing `x`. -/
theorem rowLoop_pairwise (im : Image2D α) (y : ℕ) :
    ∀ fuel x skip skipNext,
      (rowLoop im y fuel x skip skipNext).1.Pairwise
        (fun a b => a.1 < b.1) := by
  intro fuel
  induction fuel with
  | zero => intro x s sn; simp [rowLoop]
  | succ n ih =>
    intro x s sn
    simp only [rowLoop]
    split_ifs with h1 h2 h3 h4 h5
    · exact ih (x+1) s sn
    · simp
    · dsimp only
      refine List.pairwise_append.mpr ⟨?_, ih _ _ _, ?_⟩
      · rcases (checkEmit im y (follow im y im.sizeX x) s sn).1 with _ | c
        · simp
        · simp
      · intro a ha b hb
        rw [Option.mem_toList, Option.mem_def] at ha
        obtain ⟨ha1, -⟩ := checkEmit_some ha
        obtain ⟨-, -, hxb, -⟩ := rowLoop_row_facts im y n _ _ _ b hb
        subst ha1
        dsimp only
        omega
    · exact ih (x+1) s sn
    · dsimp only
      refine List.pairwise_append.mpr ⟨?_, ih _ _ _, ?_⟩
      · rcases (checkEmit im y x s sn).1 with _ | c
        · simp
        · simp
      · intro a ha b hb
        rw [Option.mem_toList, Option.mem_def] at ha
        obtain ⟨ha1, -⟩ := checkEmit_some ha
        obtain ⟨-, -, hxb, -⟩ := rowLoop_row_facts im y n _ _ _ b hb
        subst ha1
        dsimp only
        omega
    · simp

/-- Every emission of the interior image loop started at row `y` is a sound
core candidate (`coreSound`) lying at a row `≥ y`. -/
theorem imageLoop_facts (im : Image2D α) :
    ∀ fuel y skip skipNext, 1 ≤ y →
      ∀ e ∈ imageLoop im fuel y skip skipNext,
        y ≤ e.2.1 ∧ coreSound im e := by
  intro fuel
  induction fuel with
  | zero => intro y s sn hy e he; simp [imageLoop] at he
  | succ n ih =>
    intro y s sn hy e he
    simp only [imageLoop] at he
    split_ifs at he with h1
    · simp only [List.mem_append] at he
      rcases he with he | he
      · obtain ⟨hy1, hv, hx, hxu, hr1, hr2, hr3, hr4, hr5, hr6, hr7, hr8⟩ :=
          rowLoop_row_facts im y im.sizeX 1 s sn e he
        exact ⟨by omega, hx, hxu, by omega, by omega, hv,
          hr1, hr2, hr3, hr4, hr5, hr6, hr7, hr8⟩
      · obtain ⟨hyb, hc⟩ := ih (y+1) _ _ (by omega) e he
        exact ⟨by omega, hc⟩
    · exact (List.not_mem_nil e (by simpa using he)).elim

/-- The interior image loop emits candidates in row-major order: later
emissions lie in a strictly later row or at a strictly larger `x` of the
same row. -/
theorem imageLoop_pairwise (im : Image2D α) :
    ∀ fuel y skip skipNext, 1 ≤ y →
      (imageLoop im fuel y skip skipNext).Pairwise
        (fun a b => a.2.1 < b.2.1 ∨ (a.2.1 = b.2.1 ∧ a.1 < b.1)) := by
  intro fuel
  induction fuel with
  | zero => intro y s sn hy; simp [imageLoop]
  | succ n ih =>
    intro y s sn hy
    simp only [imageLoop]
    split_ifs with h1
    · refine List.pairwise_append.mpr ⟨?_, ih _ _ _ (by omega), ?_⟩
      · have hp := rowLoop_pairwise im y im.sizeX 1 s sn
        refine hp.imp_of_mem ?_
        intro a b ha hb hab
        obtain ⟨hya, -⟩ := rowLoop_row_facts im y im.sizeX 1 s sn a ha
        obtain ⟨hyb, -⟩ := rowLoop_row_facts im y im.sizeX 1 s sn b hb
        exact Or.inr ⟨hya.trans hyb.symm, hab⟩
      · intro a ha b hb
        obtain ⟨hya, -⟩ := rowLoop_row_facts im y im.sizeX 1 s sn a ha
        obtain ⟨hyb, -⟩ := imageLoop_facts im n (y+1) _ _ (by omega) b hb
        exact Or.inl (by omega)
    · simp

/-- Every candidate of the edge/corner enumeration strictly dominates its
whole clipped 3-neighborhood. -/
theorem edges_sound (im : Image2D α) (hX : 3 ≤ im.sizeX) (hY : 3 ≤ im.sizeY) :
    ∀ e ∈ maxima_3x3_edges im, edgeSound im e := by
  intro e he
  simp only [maxima_3x3_edges, List.mem_append, List.mem_flatMap,
    List.mem_reverse, List.mem_range'_1] at he
  rcases he with ((((((he | he) | he) | he) | he) | he) | he) | he
  · obtain ⟨rfl, hnb⟩ := edgeScanGuard_mem he
    have f1 := hnb (0,1) (by simp)
    have f2 := hnb (1,0) (by simp)
    have f3 := hnb (1,1) (by simp)
    unfold edgeSound
    dsimp only
    refine ⟨by omega, by omega, Or.inl rfl, rfl, ?_⟩
    intro i j hi hj hi1 hi2 hj1 hj2 hne
    have hia : i = 0 ∨ i = 1 := by omega
    have hja : j = 0 ∨ j = 1 := by omega
    rcases hia with rfl | rfl <;> rcases hja with rfl | rfl <;>
      first | exact absurd rfl hne | exact f1 | exact f2 | exact f3
  · obtain ⟨x, ⟨hx1, hx2⟩, he⟩ := he
    obtain ⟨rfl, hnb⟩ := edgeScanGuard_mem he
    have f1 := hnb (x-1,0) (by simp)
    have f2 := hnb (x+1,0) (by simp)
    have f3 := hnb (x-1,1) (by simp)
    have f4 := hnb (x,1) (by simp)
    have f5 := hnb (x+1,1) (by simp)
    unfold edgeSound
    dsimp only
    refine ⟨by omega, by omega, Or.inr (Or.inr (Or.inl rfl)), rfl, ?_⟩
    intro i j hi hj hi1 hi2 hj1 hj2 hne
    have hia : i = x - 1 ∨ i = x ∨ i = x + 1 := by omega
    have hja : j = 0 ∨ j = 1 := by omega
    rcases hia with rfl | rfl | rfl <;> rcases hja with rfl | rfl <;>
      first | exact absurd rfl hne
            | exact f1 | exact f2 | exact f3 | exact f4 | exact f5
  · obtain ⟨rfl, hnb⟩ := edgeScanGuard_mem he
    have f1 := hnb (im.sizeX-1,1) (by simp)
    have f2 := hnb (im.sizeX-2,0) (by simp)
    have f3 := hnb (im.sizeX-2,1) (by simp)
    unfold edgeSound
    dsimp only
    refine ⟨by omega, by omega, Or.inr (Or.inl rfl), rfl, ?_⟩
    intro i j hi hj hi1 hi2 hj1 hj2 hne
    have hia : i = im.sizeX - 2 ∨ i = im.sizeX - 1 := by omega
    have hja : j = 0 ∨ j = 1 := by omega
    rcases hia with rfl | rfl <;> rcases hja with rfl | rfl <;>
      first | exact absurd rfl hne | exact f1 | exact f2 | exact f3
  · obtain ⟨y, ⟨hy1, hy2⟩, he⟩ := he
    obtain ⟨rfl, hnb⟩ := edgeScanGuard_mem he
    have f1 := hnb (im.sizeX-1,y-1) (by simp)
    have f2 := hnb (im.sizeX-1,y+1) (by simp)
    have f3 := hnb (im.sizeX-2,y-1) (by simp)
    have f4 := hnb (im.sizeX-2,y) (by simp)
    have f5 := hnb (im.sizeX-2,y+1) (by simp)
    unfold edgeSound
    dsimp only
    refine ⟨by omega, by omega, Or.inr (Or.inl rfl), rfl, ?_⟩
    intro i j hi hj hi1 hi2 hj1 hj2 hne
    have hia : i = im.sizeX - 2 ∨ i = im.sizeX - 1 := by omega
    have hja : j = y - 1 ∨ j = y ∨ j = y + 1 := by omega
    rcases hia with rfl | rfl <;> rcases hja with rfl | rfl | rfl <;>
      first | exact absurd rfl hne
            | exact f1 | exact f2 | exact f3 | exact f4 | exact f5
  · obtain ⟨rfl, hnb⟩ := edgeScanGuard_mem he
    have f1 := hnb (im.sizeX-1,im.sizeY-2) (by simp)
    have f2 := hnb (im.sizeX-2,im.sizeY-1) (by simp)
    have f3 := hnb (im.sizeX-2,im.sizeY-2) (by simp)
    unfold edgeSound
    dsimp only
    refine ⟨by omega, by omega, Or.inr (Or.inl rfl), rfl, ?_⟩
    intro i j hi hj hi1 hi2 hj1 hj2 hne
    have hia : i = im.sizeX - 2 ∨ i = im.sizeX - 1 := by omega
    have hja : j = im.sizeY - 2 ∨ j = im.sizeY - 1 := by omega
    rcases hia with rfl | rfl <;> rcases hja with rfl | rfl <;>
      first | exact absurd rfl hne | exact f1 | exact f2 | exact f3
  · obtain ⟨x, ⟨hx1, hx2⟩, he⟩ := he
    obtain ⟨rfl, hnb⟩ := edgeScanGuard_mem he
    have f1 := hnb (x-1,im.sizeY-1) (by simp)
    have f2 := hnb (x+1,im.sizeY-1) (by simp)
    have f3 := hnb (x-1,im.sizeY-2) (by simp)
    have f4 := hnb (x,im.sizeY-2) (by simp)
    have f5 := hnb (x+1,im.sizeY-2) (by simp)
    unfold edgeSound
    dsimp only
    refine ⟨by omega, by omega, Or.inr (Or.inr (Or.inr rfl)), rfl, ?_⟩
    intro i j hi hj hi1 hi2 hj1 hj2 hne
    have hia : i = x - 1 ∨ i = x ∨ i = x + 1 := by omega
    have hja : j = im.sizeY - 2 ∨ j = im.sizeY - 1 := by omega
    rcases hia with rfl | rfl | rfl <;> rcases hja with rfl | rfl <;>
      first | exact absurd rfl hne
            | exact f1 | exact f2 | exact f3 | exact f4 | exact f5
  · obtain ⟨rfl, hnb⟩ := edgeScanGuard_mem he
    have f1 := hnb (0,im.sizeY-2) (by simp)
    have f2 := hnb (1,im.sizeY-1) (by simp)
    have f3 := hnb (1,im.sizeY-2) (by simp)
    unfold edgeSound
    dsimp only
    refine ⟨by omega, by omega, Or.inl rfl, rfl, ?_⟩
    intro i j hi hj hi1 hi2 hj1 hj2 hne
    have hia : i = 0 ∨ i = 1 := by omega
    have hja : j = im.sizeY - 2 ∨ j = im.sizeY - 1 := by omega
    rcases hia with rfl | rfl <;> rcases hja with rfl | rfl <;>
      first | exact absurd rfl hne | exact f1 | exact f2 | exact f3
  · obtain ⟨y, ⟨hy1, hy2⟩, he⟩ := he
    obtain ⟨rfl, hnb⟩ := edgeScanGuard_mem he
    have f1 := hnb (0,y-1) (by simp)
    have f2 := hnb (0,y+1) (by simp)
    have f3 := hnb (1,y-1) (by simp)
    have f4 := hnb (1,y) (by simp)
    have f5 := hnb (1,y+1) (by simp)
    unfold edgeSound
    dsimp only
    refine ⟨by omega, by omega, Or.inl rfl, rfl, ?_⟩
    intro i j hi hj hi1 hi2 hj1 hj2 hne
    have hia : i = 0 ∨ i = 1 := by omega
    have hja : j = y - 1 ∨ j = y ∨ j = y + 1 := by omega
    rcases hia with rfl | rfl <;> rcases hja with rfl | rfl | rfl <;>
      first | exact absurd rfl hne
            | exact f1 | exact f2 | exact f3 | exact f4 | exact f5

/-- A list of length at most one is vacuously pairwise. -/
theorem pairwise_len_le_one {γ : Type} {R : γ → γ → Prop} :
    ∀ {l : List γ}, l.length ≤ 1 → l.Pairwise R
  | [], _ => List.Pairwise.nil
  | [_], _ => by simp
  | _ :: _ :: _, h => by simp at h

/-- An edge-scan guard emits at most one candidate. -/
theorem edgeScanGuard_len (im : Image2D α) (x y : ℕ) (nbrs : List (ℕ × ℕ)) :
    (edgeScanGuard im x y nbrs).length ≤ 1 := by
  unfold edgeScanGuard
  split_ifs <;> simp

/-- A flat map whose chunks have length at most one, each chunk determining
its key, is pairwise for any relation implied by distinct keys. -/
theorem pairwise_flatMap_key {γ : Type} {R : γ → γ → Prop} (key : γ → ℕ)
    (f : ℕ → List γ) :
    ∀ l : List ℕ, l.Pairwise (fun a b => a ≠ b) →
      (∀ x, ∀ e ∈ f x, key e = x) →
      (∀ x, (f x).length ≤ 1) →
      (∀ u v, key u ≠ key v → R u v) →
      (l.flatMap f).Pairwise R := by
  intro l
  induction l with
  | nil =>
    intro _ _ _ _
    simp
  | cons a t ih =>
    intro hl hkey hlen hR
    rw [List.flatMap_cons]
    rcases List.pairwise_cons.mp hl with ⟨ha, ht⟩
    refine List.pairwise_append.mpr
      ⟨pairwise_len_le_one (hlen a), ih ht hkey hlen hR, ?_⟩
    intro u hu v hv
    obtain ⟨b, hbt, hvb⟩ := List.mem_flatMap.mp hv
    exact hR u v (by rw [hkey a u hu, hkey b v hvb]; exact ha b hbt)

/-- The eight edge/corner scan legs visit pairwise distinct pixels, so the
edge candidates have pairwise distinct coordinates. -/
theorem edges_pairwise_ne (im : Image2D α)
    (hX : 3 ≤ im.sizeX) (hY : 3 ≤ im.sizeY) :
    (maxima_3x3_edges im).Pairwise (fun a b => candPt a ≠ candPt b) := by
  have g1 : ∀ e ∈ edgeScanGuard im 0 0 [(0,1),(1,0),(1,1)], (candPt e).1 = 0 ∧ (candPt e).2 = 0 := by
    intro e he
    obtain ⟨rfl, -⟩ := edgeScanGuard_mem he
    exact ⟨rfl, rfl⟩
  have g2 : ∀ e ∈ (List.range' 1 (im.sizeX-2)).flatMap fun x =>
        edgeScanGuard im x 0 [(x-1,0),(x+1,0),(x-1,1),(x,1),(x+1,1)], 1 ≤ (candPt e).1 ∧ (candPt e).1 + 2 ≤ im.sizeX ∧ (candPt e).2 = 0 := by
    intro e he
    simp only [List.mem_flatMap, List.mem_range'_1] at he
    obtain ⟨x, ⟨h1, h2⟩, he⟩ := he
    obtain ⟨rfl, -⟩ := edgeScanGuard_mem he
    exact ⟨h1, (by omega : x + 2 ≤ im.sizeX), rfl⟩
  have g3 : ∀ e ∈ edgeScanGuard im (im.sizeX-1) 0 [(im.sizeX-1,1),(im.sizeX-2,0),(im.sizeX-2,1)], (candPt e).1 = im.sizeX - 1 ∧ (candPt e).2 = 0 := by
    intro e he
    obtain ⟨rfl, -⟩ := edgeScanGuard_mem he
    exact ⟨rfl, rfl⟩
  have g4 : ∀ e ∈ (List.range' 1 (im.sizeY-2)).flatMap fun y =>
        edgeScanGuard im (im.sizeX-1) y
          [(im.sizeX-1,y-1),(im.sizeX-1,y+1),(im.sizeX-2,y-1),(im.sizeX-2,y),(im.sizeX-2,y+1)], (candPt e).1 = im.sizeX - 1 ∧ 1 ≤ (candPt e).2 ∧ (candPt e).2 + 2 ≤ im.sizeY := by
    intro e he
    simp only [List.mem_flatMap, List.mem_range'_1] at he
    obtain ⟨y, ⟨h1, h2⟩, he⟩ := he
    obtain ⟨rfl, -⟩ := edgeScanGuard_mem he
    exact ⟨rfl, h1, (by omega : y + 2 ≤ im.sizeY)⟩
  have g5 : ∀ e ∈ edgeScanGuard im (im.sizeX-1) (im.sizeY-1) [(im.sizeX-1,im.sizeY-2),(im.sizeX-2,im.sizeY-1),(im.sizeX-2,im.sizeY-2)], (candPt e).1 = im.sizeX - 1 ∧ (candPt e).2 = im.sizeY - 1 := by
    intro e he
    obtain ⟨rfl, -⟩ := edgeScanGuard_mem he
    exact ⟨rfl, rfl⟩
  have g6 : ∀ e ∈ (List.range' 1 (im.sizeX-2)).reverse.flatMap fun x =>
        edgeScanGuard im x (im.sizeY-1)
          [(x-1,im.sizeY-1),(x+1,im.sizeY-1),(x-1,im.sizeY-2),(x,im.sizeY-2),(x+1,im.sizeY-2)], 1 ≤ (candPt e).1 ∧ (candPt e).1 + 2 ≤ im.sizeX ∧ (candPt e).2 = im.sizeY - 1 := by
    intro e he
    simp only [List.mem_flatMap, List.mem_reverse, List.mem_range'_1] at he
    obtain ⟨x, ⟨h1, h2⟩, he⟩ := he
    obtain ⟨rfl, -⟩ := edgeScanGuard_mem he
    exact ⟨h1, (by omega : x + 2 ≤ im.sizeX), rfl⟩
  have g7 : ∀ e ∈ edgeScanGuard im 0 (im.sizeY-1) [(0,im.sizeY-2),(1,im.sizeY-1),(1,im.sizeY-2)], (candPt e).1 = 0 ∧ (candPt e).2 = im.sizeY - 1 := by
    intro e he
    obtain ⟨rfl, -⟩ := edgeScanGuard_mem he
    exact ⟨rfl, rfl⟩
  have g8 : ∀ e ∈ (List.range' 1 (im.sizeY-2)).reverse.flatMap fun y =>
        edgeScanGuard im 0 y [(0,y-1),(0,y+1),(1,y-1),(1,y),(1,y+1)], (candPt e).1 = 0 ∧ 1 ≤ (candPt e).2 ∧ (candPt e).2 + 2 ≤ im.sizeY := by
    intro e he
    simp only [List.mem_flatMap, List.mem_reverse, List.mem_range'_1] at he
    obtain ⟨y, ⟨h1, h2⟩, he⟩ := he
    obtain ⟨rfl, -⟩ := edgeScanGuard_mem he
    exact ⟨rfl, h1, (by omega : y + 2 ≤ im.sizeY)⟩
  have hp1 : (edgeScanGuard im 0 0 [(0,1),(1,0),(1,1)]).Pairwise (fun a b => candPt a ≠ candPt b) := by
    exact pairwise_len_le_one (edgeScanGuard_len im 0 0 _)
  have hp2 : ((List.range' 1 (im.sizeX-2)).flatMap fun x =>
        edgeScanGuard im x 0 [(x-1,0),(x+1,0),(x-1,1),(x,1),(x+1,1)]).Pairwise (fun a b => candPt a ≠ candPt b) := by
    refine pairwise_flatMap_key (fun e => e.1) _ _ (List.nodup_range' 1 (im.sizeX - 2)) ?_ ?_ ?_
    · intro x e he
      obtain ⟨rfl, -⟩ := edgeScanGuard_mem he
      rfl
    · intro x
      exact edgeScanGuard_len im x 0 _
    · intro u v h hEq
      exact h ((congrArg Prod.fst hEq : (candPt u).1 = (candPt v).1))
  have hp3 : (edgeScanGuard im (im.sizeX-1) 0 [(im.sizeX-1,1),(im.sizeX-2,0),(im.sizeX-2,1)]).Pairwise (fun a b => candPt a ≠ candPt b) := by
    exact pairwise_len_le_one (edgeScanGuard_len im (im.sizeX-1) 0 _)
  have hp4 : ((List.range' 1 (im.sizeY-2)).flatMap fun y =>
        edgeScanGuard im (im.sizeX-1) y
          [(im.sizeX-1,y-1),(im.sizeX-1,y+1),(im.sizeX-2,y-1),(im.sizeX-2,y),(im.sizeX-2,y+1)]).Pairwise (fun a b => candPt a ≠ candPt b) := by
    refine pairwise_flatMap_key (fun e => e.2.1) _ _ (List.nodup_range' 1 (im.sizeY - 2)) ?_ ?_ ?_
    · intro y e he
      obtain ⟨rfl, -⟩ := edgeScanGuard_mem he
      rfl
    · intro y
      exact edgeScanGuard_len im (im.sizeX-1) y _
    · intro u v h hEq
      exact h ((congrArg Prod.snd hEq : (candPt u).2 = (candPt v).2))
  have hp5 : (edgeScanGuard im (im.sizeX-1) (im.sizeY-1) [(im.sizeX-1,im.sizeY-2),(im.sizeX-2,im.sizeY-1),(im.sizeX-2,im.sizeY-2)]).Pairwise (fun a b => candPt a ≠ candPt b) := by
    exact pairwise_len_le_one (edgeScanGuard_len im (im.sizeX-1) (im.sizeY-1) _)
  have hp6 : ((List.range' 1 (im.sizeX-2)).reverse.flatMap fun x =>
        edgeScanGuard im x (im.sizeY-1)
          [(x-1,im.sizeY-1),(x+1,im.sizeY-1),(x-1,im.sizeY-2),(x,im.sizeY-2),(x+1,im.sizeY-2)]).Pairwise (fun a b => candPt a ≠ candPt b) := by
    refine pairwise_flatMap_key (fun e => e.1) _ _ (List.nodup_reverse.mpr (List.nodup_range' 1 (im.sizeX - 2))) ?_ ?_ ?_
    · intro x e he
      obtain ⟨rfl, -⟩ := edgeScanGuard_mem he
      rfl
    · intro x
      exact edgeScanGuard_len im x (im.sizeY-1) _
    · intro u v h hEq
      exact h ((congrArg Prod.fst hEq : (candPt u).1 = (candPt v).1))
  have hp7 : (edgeScanGuard im 0 (im.sizeY-1) [(0,im.sizeY-2),(1,im.sizeY-1),(1,im.sizeY-2)]).Pairwise (fun a b => candPt a ≠ candPt b) := by
    exact pairwise_len_le_one (edgeScanGuard_len im 0 (im.sizeY-1) _)
  have hp8 : ((List.range' 1 (im.sizeY-2)).reverse.flatMap fun y =>
        edgeScanGuard im 0 y [(0,y-1),(0,y+1),(1,y-1),(1,y),(1,y+1)]).Pairwise (fun a b => candPt a ≠ candPt b) := by
    refine pairwise_flatMap_key (fun e => e.2.1) _ _ (List.nodup_reverse.mpr (List.nodup_range' 1 (im.sizeY - 2))) ?_ ?_ ?_
    · intro y e he
      obtain ⟨rfl, -⟩ := edgeScanGuard_mem he
      rfl
    · intro y
      exact edgeScanGuard_len im 0 y _
    · intro u v h hEq
      exact h ((congrArg Prod.snd hEq : (candPt u).2 = (candPt v).2))
  have m1 : ∀ e ∈ edgeScanGuard im 0 0 [(0,1),(1,0),(1,1)], (candPt e).1 = 0 ∧ (candPt e).2 = 0 := g1
  have m2 : ∀ e ∈ edgeScanGuard im 0 0 [(0,1),(1,0),(1,1)]
      ++ ((List.range' 1 (im.sizeX-2)).flatMap fun x =>
        edgeScanGuard im x 0 [(x-1,0),(x+1,0),(x-1,1),(x,1),(x+1,1)]), ((candPt e).1 = 0 ∧ (candPt e).2 = 0) ∨ (1 ≤ (candPt e).1 ∧ (candPt e).1 + 2 ≤ im.sizeX ∧ (candPt e).2 = 0) := by
    intro e he
    rcases List.mem_append.mp he with h | h
    · exact Or.inl (m1 e h)
    · exact Or.inr (g2 e h)
  have q2 : (edgeScanGuard im 0 0 [(0,1),(1,0),(1,1)]
      ++ ((List.range' 1 (im.sizeX-2)).flatMap fun x =>
        edgeScanGuard im x 0 [(x-1,0),(x+1,0),(x-1,1),(x,1),(x+1,1)])).Pairwise (fun a b => candPt a ≠ candPt b) := by
    refine List.pairwise_append.mpr ⟨hp1, hp2, ?_⟩
    intro a ha b hb hEq
    have ra := m1 a ha
    have rb := g2 b hb
    rw [hEq] at ra
    omega
  have m3 : ∀ e ∈ edgeScanGuard im 0 0 [(0,1),(1,0),(1,1)]
      ++ ((List.range' 1 (im.sizeX-2)).flatMap fun x =>
        edgeScanGuard im x 0 [(x-1,0),(x+1,0),(x-1,1),(x,1),(x+1,1)])
      ++ (edgeScanGuard im (im.sizeX-1) 0 [(im.sizeX-1,1),(im.sizeX-2,0),(im.sizeX-2,1)]), (((candPt e).1 = 0 ∧ (candPt e).2 = 0) ∨ (1 ≤ (candPt e).1 ∧ (candPt e).1 + 2 ≤ im.sizeX ∧ (candPt e).2 = 0)) ∨ ((candPt e).1 = im.sizeX - 1 ∧ (candPt e).2 = 0) := by
    intro e he
    rcases List.mem_append.mp he with h | h
    · exact Or.inl (m2 e h)
    · exact Or.inr (g3 e h)
  have q3 : (edgeScanGuard im 0 0 [(0,1),(1,0),(1,1)]
      ++ ((List.range' 1 (im.sizeX-2)).flatMap fun x =>
        edgeScanGuard im x 0 [(x-1,0),(x+1,0),(x-1,1),(x,1),(x+1,1)])
      ++ (edgeScanGuard im (im.sizeX-1) 0 [(im.sizeX-1,1),(im.sizeX-2,0),(im.sizeX-2,1)])).Pairwise (fun a b => candPt a ≠ candPt b) := by
    refine List.pairwise_append.mpr ⟨q2, hp3, ?_⟩
    intro a ha b hb hEq
    have rb := g3 b hb
    rcases m2 a ha with (r | r) <;> (rw [hEq] at r; omega)
  have m4 : ∀ e ∈ edgeScanGuard im 0 0 [(0,1),(1,0),(1,1)]
      ++ ((List.range' 1 (im.sizeX-2)).flatMap fun x =>
        edgeScanGuard im x 0 [(x-1,0),(x+1,0),(x-1,1),(x,1),(x+1,1)])
      ++ (edgeScanGuard im (im.sizeX-1) 0 [(im.sizeX-1,1),(im.sizeX-2,0),(im.sizeX-2,1)])
      ++ ((List.range' 1 (im.sizeY-2)).flatMap fun y =>
        edgeScanGuard im (im.sizeX-1) y
          [(im.sizeX-1,y-1),(im.sizeX-1,y+1),(im.sizeX-2,y-1),(im.sizeX-2,y),(im.sizeX-2,y+1)]), ((((candPt e).1 = 0 ∧ (candPt e).2 = 0) ∨ (1 ≤ (candPt e).1 ∧ (candPt e).1 + 2 ≤ im.sizeX ∧ (candPt e).2 = 0)) ∨ ((candPt e).1 = im.sizeX - 1 ∧ (candPt e).2 = 0)) ∨ ((candPt e).1 = im.sizeX - 1 ∧ 1 ≤ (candPt e).2 ∧ (candPt e).2 + 2 ≤ im.sizeY) := by
    intro e he
    rcases List.mem_append.mp he with h | h
    · exact Or.inl (m3 e h)
    · exact Or.inr (g4 e h)
  have q4 : (edgeScanGuard im 0 0 [(0,1),(1,0),(1,1)]
      ++ ((List.range' 1 (im.sizeX-2)).flatMap fun x =>
        edgeScanGuard im x 0 [(x-1,0),(x+1,0),(x-1,1),(x,1),(x+1,1)])
      ++ (edgeScanGuard im (im.sizeX-1) 0 [(im.sizeX-1,1),(im.sizeX-2,0),(im.sizeX-2,1)])
      ++ ((List.range' 1 (im.sizeY-2)).flatMap fun y =>
        edgeScanGuard im (im.sizeX-1) y
          [(im.sizeX-1,y-1),(im.sizeX-1,y+1),(im.sizeX-2,y-1),(im.sizeX-2,y),(im.sizeX-2,y+1)])).Pairwise (fun a b => candPt a ≠ candPt b) := by
    refine List.pairwise_append.mpr ⟨q3, hp4, ?_⟩
    intro a ha b hb hEq
    have rb := g4 b hb
    rcases m3 a ha with ((r | r) | r) <;> (rw [hEq] at r; omega)
  have m5 : ∀ e ∈ edgeScanGuard im 0 0 [(0,1),(1,0),(1,1)]
      ++ ((List.range' 1 (im.sizeX-2)).flatMap fun x =>
        edgeScanGuard im x 0 [(x-1,0),(x+1,0),(x-1,1),(x,1),(x+1,1)])
      ++ (edgeScanGuard im (im.sizeX-1) 0 [(im.sizeX-1,1),(im.sizeX-2,0),(im.sizeX-2,1)])
      ++ ((List.range' 1 (im.sizeY-2)).flatMap fun y =>
        edgeScanGuard im (im.sizeX-1) y
          [(im.sizeX-1,y-1),(im.sizeX-1,y+1),(im.sizeX-2,y-1),(im.sizeX-2,y),(im.sizeX-2,y+1)])
      ++ (edgeScanGuard im (im.sizeX-1) (im.sizeY-1) [(im.sizeX-1,im.sizeY-2),(im.sizeX-2,im.sizeY-1),(im.sizeX-2,im.sizeY-2)]), (((((candPt e).1 = 0 ∧ (candPt e).2 = 0) ∨ (1 ≤ (candPt e).1 ∧ (candPt e).1 + 2 ≤ im.sizeX ∧ (candPt e).2 = 0)) ∨ ((candPt e).1 = im.sizeX - 1 ∧ (candPt e).2 = 0)) ∨ ((candPt e).1 = im.sizeX - 1 ∧ 1 ≤ (candPt e).2 ∧ (candPt e).2 + 2 ≤ im.sizeY)) ∨ ((candPt e).1 = im.sizeX - 1 ∧ (candPt e).2 = im.sizeY - 1) := by
    intro e he
    rcases List.mem_append.mp he with h | h
    · exact Or.inl (m4 e h)
    · exact Or.inr (g5 e h)
  have q5 : (edgeScanGuard im 0 0 [(0,1),(1,0),(1,1)]
      ++ ((List.range' 1 (im.sizeX-2)).flatMap fun x =>
        edgeScanGuard im x 0 [(x-1,0),(x+1,0),(x-1,1),(x,1),(x+1,1)])
      ++ (edgeScanGuard im (im.sizeX-1) 0 [(im.sizeX-1,1),(im.sizeX-2,0),(im.sizeX-2,1)])
      ++ ((List.range' 1 (im.sizeY-2)).flatMap fun y =>
        edgeScanGuard im (im.sizeX-1) y
          [(im.sizeX-1,y-1),(im.sizeX-1,y+1),(im.sizeX-2,y-1),(im.sizeX-2,y),(im.sizeX-2,y+1)])
      ++ (edgeScanGuard im (im.sizeX-1) (im.sizeY-1) [(im.sizeX-1,im.sizeY-2),(im.sizeX-2,im.sizeY-1),(im.sizeX-2,im.sizeY-2)])).Pairwise (fun a b => candPt a ≠ candPt b) := by
    refine List.pairwise_append.mpr ⟨q4, hp5, ?_⟩
    intro a ha b hb hEq
    have rb := g5 b hb
    rcases m4 a ha with (((r | r) | r) | r) <;> (rw [hEq] at r; omega)
  have m6 : ∀ e ∈ edgeScanGuard im 0 0 [(0,1),(1,0),(1,1)]
      ++ ((List.range' 1 (im.sizeX-2)).flatMap fun x =>
        edgeScanGuard im x 0 [(x-1,0),(x+1,0),(x-1,1),(x,1),(x+1,1)])
      ++ (edgeScanGuard im (im.sizeX-1) 0 [(im.sizeX-1,1),(im.sizeX-2,0),(im.sizeX-2,1)])
      ++ ((List.range' 1 (im.sizeY-2)).flatMap fun y =>
        edgeScanGuard im (im.sizeX-1) y
          [(im.sizeX-1,y-1),(im.sizeX-1,y+1),(im.sizeX-2,y-1),(im.sizeX-2,y),(im.sizeX-2,y+1)])
      ++ (edgeScanGuard im (im.sizeX-1) (im.sizeY-1) [(im.sizeX-1,im.sizeY-2),(im.sizeX-2,im.sizeY-1),(im.sizeX-2,im.sizeY-2)])
      ++ ((List.range' 1 (im.sizeX-2)).reverse.flatMap fun x =>
        edgeScanGuard im x (im.sizeY-1)
          [(x-1,im.sizeY-1),(x+1,im.sizeY-1),(x-1,im.sizeY-2),(x,im.sizeY-2),(x+1,im.sizeY-2)]), ((((((candPt e).1 = 0 ∧ (candPt e).2 = 0) ∨ (1 ≤ (candPt e).1 ∧ (candPt e).1 + 2 ≤ im.sizeX ∧ (candPt e).2 = 0)) ∨ ((candPt e).1 = im.sizeX - 1 ∧ (candPt e).2 = 0)) ∨ ((candPt e).1 = im.sizeX - 1 ∧ 1 ≤ (candPt e).2 ∧ (candPt e).2 + 2 ≤ im.sizeY)) ∨ ((candPt e).1 = im.sizeX - 1 ∧ (candPt e).2 = im.sizeY - 1)) ∨ (1 ≤ (candPt e).1 ∧ (candPt e).1 + 2 ≤ im.sizeX ∧ (candPt e).2 = im.sizeY - 1) := by
    intro e he
    rcases List.mem_append.mp he with h | h
    · exact Or.inl (m5 e h)
    · exact Or.inr (g6 e h)
  have q6 : (edgeScanGuard im 0 0 [(0,1),(1,0),(1,1)]
      ++ ((List.range' 1 (im.sizeX-2)).flatMap fun x =>
        edgeScanGuard im x 0 [(x-1,0),(x+1,0),(x-1,1),(x,1),(x+1,1)])
      ++ (edgeScanGuard im (im.sizeX-1) 0 [(im.sizeX-1,1),(im.sizeX-2,0),(im.sizeX-2,1)])
      ++ ((List.range' 1 (im.sizeY-2)).flatMap fun y =>
        edgeScanGuard im (im.sizeX-1) y
          [(im.sizeX-1,y-1),(im.sizeX-1,y+1),(im.sizeX-2,y-1),(im.sizeX-2,y),(im.sizeX-2,y+1)])
      ++ (edgeScanGuard im (im.sizeX-1) (im.sizeY-1) [(im.sizeX-1,im.sizeY-2),(im.sizeX-2,im.sizeY-1),(im.sizeX-2,im.sizeY-2)])
      ++ ((List.range' 1 (im.sizeX-2)).reverse.flatMap fun x =>
        edgeScanGuard im x (im.sizeY-1)
          [(x-1,im.sizeY-1),(x+1,im.sizeY-1),(x-1,im.sizeY-2),(x,im.sizeY-2),(x+1,im.sizeY-2)])).Pairwise (fun a b => candPt a ≠ candPt b) := by
    refine List.pairwise_append.mpr ⟨q5, hp6, ?_⟩
    intro a ha b hb hEq
    have rb := g6 b hb
    rcases m5 a ha with ((((r | r) | r) | r) | r) <;> (rw [hEq] at r; omega)
  have m7 : ∀ e ∈ edgeScanGuard im 0 0 [(0,1),(1,0),(1,1)]
      ++ ((List.range' 1 (im.sizeX-2)).flatMap fun x =>
        edgeScanGuard im x 0 [(x-1,0),(x+1,0),(x-1,1),(x,1),(x+1,1)])
      ++ (edgeScanGuard im (im.sizeX-1) 0 [(im.sizeX-1,1),(im.sizeX-2,0),(im.sizeX-2,1)])
      ++ ((List.range' 1 (im.sizeY-2)).flatMap fun y =>
        edgeScanGuard im (im.sizeX-1) y
          [(im.sizeX-1,y-1),(im.sizeX-1,y+1),(im.sizeX-2,y-1),(im.sizeX-2,y),(im.sizeX-2,y+1)])
      ++ (edgeScanGuard im (im.sizeX-1) (im.sizeY-1) [(im.sizeX-1,im.sizeY-2),(im.sizeX-2,im.sizeY-1),(im.sizeX-2,im.sizeY-2)])
      ++ ((List.range' 1 (im.sizeX-2)).reverse.flatMap fun x =>
        edgeScanGuard im x (im.sizeY-1)
          [(x-1,im.sizeY-1),(x+1,im.sizeY-1),(x-1,im.sizeY-2),(x,im.sizeY-2),(x+1,im.sizeY-2)])
      ++ (edgeScanGuard im 0 (im.sizeY-1) [(0,im.sizeY-2),(1,im.sizeY-1),(1,im.sizeY-2)]), (((((((candPt e).1 = 0 ∧ (candPt e).2 = 0) ∨ (1 ≤ (candPt e).1 ∧ (candPt e).1 + 2 ≤ im.sizeX ∧ (candPt e).2 = 0)) ∨ ((candPt e).1 = im.sizeX - 1 ∧ (candPt e).2 = 0)) ∨ ((candPt e).1 = im.sizeX - 1 ∧ 1 ≤ (candPt e).2 ∧ (candPt e).2 + 2 ≤ im.sizeY)) ∨ ((candPt e).1 = im.sizeX - 1 ∧ (candPt e).2 = im.sizeY - 1)) ∨ (1 ≤ (candPt e).1 ∧ (candPt e).1 + 2 ≤ im.sizeX ∧ (candPt e).2 = im.sizeY - 1)) ∨ ((candPt e).1 = 0 ∧ (candPt e).2 = im.sizeY - 1) := by
    intro e he
    rcases List.mem_append.mp he with h | h
    · exact Or.inl (m6 e h)
    · exact Or.inr (g7 e h)
  have q7 : (edgeScanGuard im 0 0 [(0,1),(1,0),(1,1)]
      ++ ((List.range' 1 (im.sizeX-2)).flatMap fun x =>
        edgeScanGuard im x 0 [(x-1,0),(x+1,0),(x-1,1),(x,1),(x+1,1)])
      ++ (edgeScanGuard im (im.sizeX-1) 0 [(im.sizeX-1,1),(im.sizeX-2,0),(im.sizeX-2,1)])
      ++ ((List.range' 1 (im.sizeY-2)).flatMap fun y =>
        edgeScanGuard im (im.sizeX-1) y
          [(im.sizeX-1,y-1),(im.sizeX-1,y+1),(im.sizeX-2,y-1),(im.sizeX-2,y),(im.sizeX-2,y+1)])
      ++ (edgeScanGuard im (im.sizeX-1) (im.sizeY-1) [(im.sizeX-1,im.sizeY-2),(im.sizeX-2,im.sizeY-1),(im.sizeX-2,im.sizeY-2)])
      ++ ((List.range' 1 (im.sizeX-2)).reverse.flatMap fun x =>
        edgeScanGuard im x (im.sizeY-1)
          [(x-1,im.sizeY-1),(x+1,im.sizeY-1),(x-1,im.sizeY-2),(x,im.sizeY-2),(x+1,im.sizeY-2)])
      ++ (edgeScanGuard im 0 (im.sizeY-1) [(0,im.sizeY-2),(1,im.sizeY-1),(1,im.sizeY-2)])).Pairwise (fun a b => candPt a ≠ candPt b) := by
    refine List.pairwise_append.mpr ⟨q6, hp7, ?_⟩
    intro a ha b hb hEq
    have rb := g7 b hb
    rcases m6 a ha with (((((r | r) | r) | r) | r) | r) <;> (rw [hEq] at r; omega)
  have q8 : (edgeScanGuard im 0 0 [(0,1),(1,0),(1,1)]
      ++ ((List.range' 1 (im.sizeX-2)).flatMap fun x =>
        edgeScanGuard im x 0 [(x-1,0),(x+1,0),(x-1,1),(x,1),(x+1,1)])
      ++ (edgeScanGuard im (im.sizeX-1) 0 [(im.sizeX-1,1),(im.sizeX-2,0),(im.sizeX-2,1)])
      ++ ((List.range' 1 (im.sizeY-2)).flatMap fun y =>
        edgeScanGuard im (im.sizeX-1) y
          [(im.sizeX-1,y-1),(im.sizeX-1,y+1),(im.sizeX-2,y-1),(im.sizeX-2,y),(im.sizeX-2,y+1)])
      ++ (edgeScanGuard im (im.sizeX-1) (im.sizeY-1) [(im.sizeX-1,im.sizeY-2),(im.sizeX-2,im.sizeY-1),(im.sizeX-2,im.sizeY-2)])
      ++ ((List.range' 1 (im.sizeX-2)).reverse.flatMap fun x =>
        edgeScanGuard im x (im.sizeY-1)
          [(x-1,im.sizeY-1),(x+1,im.sizeY-1),(x-1,im.sizeY-2),(x,im.sizeY-2),(x+1,im.sizeY-2)])
      ++ (edgeScanGuard im 0 (im.sizeY-1) [(0,im.sizeY-2),(1,im.sizeY-1),(1,im.sizeY-2)])
      ++ ((List.range' 1 (im.sizeY-2)).reverse.flatMap fun y =>
        edgeScanGuard im 0 y [(0,y-1),(0,y+1),(1,y-1),(1,y),(1,y+1)])).Pairwise (fun a b => candPt a ≠ candPt b) := by
    refine List.pairwise_append.mpr ⟨q7, hp8, ?_⟩
    intro a ha b hb hEq
    have rb := g8 b hb
    rcases m7 a ha with ((((((r | r) | r) | r) | r) | r) | r) <;> (rw [hEq] at r; omega)
  exact q8

/-- Any two distinct edge candidates are at Chebyshev distance `≥ 2`: if they
were adjacent, each would strictly dominate the other. -/
theorem edges_pairwise_far (im : Image2D α)
    (hX : 3 ≤ im.sizeX) (hY : 3 ≤ im.sizeY) :
    (maxima_3x3_edges im).Pairwise
      (fun a b => farApart (candPt a) (candPt b)) := by
  refine (edges_pairwise_ne im hX hY).imp_of_mem ?_
  intro a b ha hb hab
  have sa := edges_sound im hX hY a ha
  have sb := edges_sound im hX hY b hb
  unfold farApart
  intro hcl
  simp only [candPt] at hcl
  have h1 : im.val b.1 b.2.1 < a.2.2 :=
    sa.2.2.2.2 b.1 b.2.1 sb.1 sb.2.1 hcl.1 hcl.2.1 hcl.2.2.1 hcl.2.2.2
      (Ne.symm hab)
  have h2 : im.val a.1 a.2.1 < b.2.2 :=
    sb.2.2.2.2 a.1 a.2.1 sa.1 sa.2.1 hcl.2.1 hcl.1 hcl.2.2.2 hcl.2.2.1 hab
  rw [sa.2.2.2.1] at h1
  rw [sb.2.2.2.1] at h2
  exact (lt_asymm h1) h2

/-- An edge candidate and an interior-core candidate are at Chebyshev
distance `≥ 2`. -/
theorem edge_core_far {im : Image2D α} {a b : Cand2 α}
    (sa : edgeSound im a) (sb : coreSound im b) :
    farApart (candPt a) (candPt b) := by
  unfold farApart
  intro hcl
  simp only [candPt] at hcl
  obtain ⟨ha1, ha2, hb0, hav, hdom⟩ := sa
  obtain ⟨c1, c2, c3, c4, cval, cr, cl, n1, n2, n3, n4, n5, n6⟩ := sb
  have hne : (b.1, b.2.1) ≠ (a.1, a.2.1) := by
    intro hEq
    rw [Prod.mk.injEq] at hEq
    rcases hb0 with h | h | h | h <;> omega
  have h1 : im.val b.1 b.2.1 < a.2.2 :=
    hdom b.1 b.2.1 (by omega) (by omega) hcl.1 hcl.2.1 hcl.2.2.1 hcl.2.2.2 hne
  rw [hav] at h1
  rw [cval] at cr cl n1 n2 n3 n4 n5 n6
  have hxa : a.1 = b.1 - 1 ∨ a.1 = b.1 ∨ a.1 = b.1 + 1 := by omega
  have hya : a.2.1 = b.2.1 - 1 ∨ a.2.1 = b.2.1 ∨ a.2.1 = b.2.1 + 1 := by omega
  rcases hxa with hx | hx | hx <;> rcases hya with hy | hy | hy <;>
      rw [hx, hy] at h1 <;>
    first
      | exact hne (Prod.ext hx.symm hy.symm)
      | exact absurd cl (not_le.mpr h1)
      | exact (lt_asymm cr) h1
      | exact (lt_asymm n1) h1
      | exact (lt_asymm n2) h1
      | exact (lt_asymm n3) h1
      | exact (lt_asymm n4) h1
      | exact (lt_asymm n5) h1
      | exact (lt_asymm n6) h1

/-- Any two core candidates are at Chebyshev distance `≥ 2`: adjacent
candidates would have to dominate each other (with the weak left fact closing
the same-row case). -/
theorem core_pairwise_far (im : Image2D α) :
    (imageLoop im im.sizeY 1 (List.replicate im.sizeX false)
        (List.replicate im.sizeX false)).Pairwise
      (fun a b => farApart (candPt a) (candPt b)) := by
  have hp := imageLoop_pairwise im im.sizeY 1 (List.replicate im.sizeX false)
    (List.replicate im.sizeX false) (le_refl 1)
  refine hp.imp_of_mem ?_
  intro a b ha hb hab
  obtain ⟨-, sa⟩ := imageLoop_facts im im.sizeY 1 _ _ (le_refl 1) a ha
  obtain ⟨-, sb⟩ := imageLoop_facts im im.sizeY 1 _ _ (le_refl 1) b hb
  unfold farApart
  intro hcl
  simp only [candPt] at hcl
  obtain ⟨a1, a2, a3, a4, av, ar, al, an1, an2, an3, an4, an5, an6⟩ := sa
  obtain ⟨b1, b2, b3, b4, bv, br, bl, bn1, bn2, bn3, bn4, bn5, bn6⟩ := sb
  rcases hab with hlt | ⟨heq, hxlt⟩
  · have hyy : b.2.1 = a.2.1 + 1 := by omega
    have h1 : im.val b.1 b.2.1 < a.2.2 := by
      have hxx : b.1 = a.1 - 1 ∨ b.1 = a.1 ∨ b.1 = a.1 + 1 := by omega
      rcases hxx with h | h | h <;> rw [h, hyy]
      · exact an1
      · exact an2
      · exact an3
    have h2 : im.val a.1 a.2.1 < b.2.2 := by
      have hxx2 : a.1 = b.1 - 1 ∨ a.1 = b.1 ∨ a.1 = b.1 + 1 := by omega
      have hyy2 : a.2.1 = b.2.1 - 1 := by omega
      rcases hxx2 with h | h | h <;> rw [h, hyy2]
      · exact bn4
      · exact bn5
      · exact bn6
    rw [av] at h1
    rw [bv] at h2
    exact (lt_asymm h1) h2
  · have hxx : b.1 = a.1 + 1 := by omega
    have h1 : im.val b.1 b.2.1 < a.2.2 := by
      rw [hxx, ← heq]
      exact ar
    have h2 : im.val a.1 a.2.1 ≤ b.2.2 := by
      have h : a.1 = b.1 - 1 := by omega
      rw [h, heq]
      exact bl
    rw [av] at h1
    rw [bv] at h2
    exact absurd h2 (not_le.mpr h1)

/-- All candidates of `maxima_3x3` are pairwise at Chebyshev distance
`≥ 2`. -/
theorem maxima_pairwise_far (im : Image2D α)
    (hX : 3 ≤ im.sizeX) (hY : 3 ≤ im.sizeY) :
    (maxima_3x3 im).Pairwise (fun a b => farApart (candPt a) (candPt b)) := by
  unfold maxima_3x3
  refine List.pairwise_append.mpr
    ⟨edges_pairwise_far im hX hY, core_pairwise_far im, ?_⟩
  intro a ha b hb
  exact edge_core_far (edges_sound im hX hY a ha)
    ((imageLoop_facts im im.sizeY 1 _ _ (le_refl 1) b hb).2)

/-- A family of grid points inside an even-sided rectangle, pairwise at
Chebyshev distance `≥ 2`, injects into the 2×2 blocks of the rectangle, so
it has at most `sX*sY/4` members. -/
theorem length_le_of_pairwise_far (l : List (ℕ × ℕ)) (sX sY : ℕ)
    (hbnd : ∀ p ∈ l, p.1 < sX ∧ p.2 < sY)
    (hfar : l.Pairwise farApart)
    (hEx : Even sX) (hEy : Even sY) :
    l.length ≤ sX * sY / 4 := by
  have hnd : (l.map blockOf).Nodup := by
    refine List.pairwise_map.mpr (hfar.imp ?_)
    intro p q hpq hEq
    simp only [blockOf, Prod.mk.injEq] at hEq
    obtain ⟨e1, e2⟩ := hEq
    unfold farApart at hpq
    exact hpq (by omega)
  have hsub : (l.map blockOf).toFinset ⊆
      Finset.range (sX/2) ×ˢ Finset.range (sY/2) := by
    intro b hb
    rw [List.mem_toFinset] at hb
    obtain ⟨p, hp, rfl⟩ := List.mem_map.mp hb
    obtain ⟨h1, h2⟩ := hbnd p hp
    rw [Finset.mem_product, Finset.mem_range, Finset.mem_range]
    obtain ⟨ax, hax⟩ := hEx
    obtain ⟨ay, hay⟩ := hEy
    exact ⟨(by omega : p.1 / 2 < sX / 2), (by omega : p.2 / 2 < sY / 2)⟩
  calc l.length = (l.map blockOf).length := (List.length_map l blockOf).symm
    _ = (l.map blockOf).toFinset.card := (List.toFinset_card_of_nodup hnd).symm
    _ ≤ (Finset.range (sX/2) ×ˢ Finset.range (sY/2)).card :=
        Finset.card_le_card hsub
    _ = (sX/2) * (sY/2) := by
        rw [Finset.card_product, Finset.card_range, Finset.card_range]
    _ = sX * sY / 4 := by
        obtain ⟨ax, hax⟩ := hEx
        obtain ⟨ay, hay⟩ := hEy
        subst hax hay
        have e1 : (ax + ax) / 2 = ax := by omega
        have e2 : (ay + ay) / 2 = ay := by omega
        have e3 : (ax + ax) * (ay + ay) = 4 * (ax * ay) := by ring
        rw [e1, e2, e3]
        exact (Nat.mul_div_cancel_left _ (by norm_num)).symm

/-- On even-sided images at least 3×3, `maxima_3x3` emits at most
`sizeX*sizeY/4` candidates. -/
theorem maxima_3x3_count (im : Image2D α) (hX : 3 ≤ im.sizeX)
    (hY : 3 ≤ im.sizeY) (hEx : Even im.sizeX) (hEy : Even im.sizeY) :
    (maxima_3x3 im).length ≤ im.sizeX * im.sizeY / 4 := by
  have hmap : ((maxima_3x3 im).map candPt).Pairwise farApart :=
    List.pairwise_map.mpr (maxima_pairwise_far im hX hY)
  have hbnd : ∀ p ∈ (maxima_3x3 im).map candPt,
      p.1 < im.sizeX ∧ p.2 < im.sizeY := by
    intro p hp
    obtain ⟨e, he, rfl⟩ := List.mem_map.mp hp
    simp only [maxima_3x3, List.mem_append] at he
    rcases he with he | he
    · have se := edges_sound im hX hY e he
      exact ⟨se.1, se.2.1⟩
    · obtain ⟨-, hc2, -, hc4, -⟩ :=
        (imageLoop_facts im im.sizeY 1 _ _ (le_refl 1) e he).2
      exact ⟨(by omega : e.1 < im.sizeX), (by omega : e.2.1 < im.sizeY)⟩
  have h := length_le_of_pairwise_far ((maxima_3x3 im).map candPt)
    im.sizeX im.sizeY hbnd hmap hEx hEy
  simpa using h

end MaximaCountLemmas

end Boxxer

namespace Boxxer

/-- C2: the fast 3-neighborhood maxima finder does not return the same set of
(coordinate, value) pairs as the reference finder on every input: on
`tieRunImage` the fast skip-table core emits `(2,1)` (value 1) while the
reference `maxima_3x3_slow` emits nothing, because after following the
non-decreasing run `im(1,1) ≤ im(2,1)` the fast path omits the left-neighbor
strictness check.  (The 3D fast core asserts exactly this property via
`check_maxima` and would throw `LogicalError("Bad maxima.")` on the analogous
volume.) -/
theorem fast_slow_mismatch_on_tie_run :
    maxima_3x3 tieRunImage = [(2, 1, (1:ℚ))] ∧
    maxima_3x3_slow tieRunImage = [] := by
  constructor <;> decide

/-- C1: `find_maxima` can return a pair `(p, v)` whose point is not a strict
local maximum: on `tieRunImage` with boxsize 3 it returns exactly `(2,1)`
with value 1, yet `(2,1)` is not a strict maximum of the clipped 3-box
because `im(1,1) = 1` ties it — contradicting the claim that ties never
yield a maximum. -/
theorem find_maxima_returns_non_maximum :
    find_maxima_list tieRunImage 3 = [(2, 1, (1:ℚ))] ∧
    ¬ specStrictMax2D tieRunImage 3 2 1 := by
  constructor <;> decide

/-- C4: the preallocated capacity `prod(size)/2^d` is NOT a safe upper bound
for every input: for `d = 2`, on the 3×3 `fourCornerImage` (an admissible
input with odd boxsize 3 ≤ every axis length) the edge enumeration alone
yields four strict local maxima while the capacity is `3*3/4 = 2`, so
`Maxima2D::detect_maxima` reaches its
`LogicalError("Cannot add more maxima...")` branch. -/
theorem capacity_exceeded_on_odd_sizes :
    Odd 3 ∧ 3 ≤ fourCornerImage.sizeX ∧ 3 ≤ fourCornerImage.sizeY ∧
    (maxima_3x3 fourCornerImage).length = 4 ∧
    max_maxima2D fourCornerImage = 2 ∧
    find_maxima_checked fourCornerImage 3 = Except.error () := by
  refine ⟨by decide, by decide, by decide, by decide, by decide, rfl⟩

/-- C4 (amended, 2D): for every 2D image with EVEN axis lengths (each at
least 3, hence at least 4) and every odd boxsize `B ≥ 3` with `B` at most
every axis length, the strict-maxima candidates of `Maxima2D::find_maxima`
number at most the preallocated capacity `size(0)*size(1)/4`, so the
`LogicalError` branch of `Maxima2D::detect_maxima` is unreachable and
`find_maxima` completes normally.  The bound comes from the candidates being
pairwise at Chebyshev distance `≥ 2`, hence injecting into the 2×2 blocks of
the image; the amendment covers only the 2D finder, whose code is embedded
here. -/
theorem capacity_bound_even_sizes {α : Type} [LinearOrder α] (im : Image2D α)
    (boxsize : ℕ) (hEx : Even im.sizeX) (hEy : Even im.sizeY)
    (hX : 3 ≤ im.sizeX) (hY : 3 ≤ im.sizeY)
    (ho : Odd boxsize) (h3 : 3 ≤ boxsize)
    (hbx : boxsize ≤ im.sizeX) (hby : boxsize ≤ im.sizeY) :
    (maxima_3x3 im).length ≤ max_maxima2D im ∧
    ∃ l, find_maxima_checked im boxsize = Except.ok l := by
  have hc : (maxima_3x3 im).length ≤ max_maxima2D im :=
    maxima_3x3_count im hX hY hEx hEy
  refine ⟨hc, find_maxima_list im boxsize, ?_⟩
  unfold find_maxima_checked
  rw [if_neg (not_lt.mpr hc)]

/-- C4 witness: the amended 2D bound applied to the 4×4 all-zero image with
boxsize 3. -/
theorem capacity_bound_even_sizes_witness :
    (Even flatImage4.sizeX ∧ Even flatImage4.sizeY ∧
      3 ≤ flatImage4.sizeX ∧ 3 ≤ flatImage4.sizeY ∧
      Odd 3 ∧ 3 ≤ 3 ∧ 3 ≤ flatImage4.sizeX ∧ 3 ≤ flatImage4.sizeY) ∧
    ((maxima_3x3 flatImage4).length ≤ max_maxima2D flatImage4 ∧
      ∃ l, find_maxima_checked flatImage4 3 = Except.ok l) :=
  ⟨⟨by decide, by decide, by decide, by decide,
    by decide, by decide, by decide, by decide⟩,
   capacity_bound_even_sizes flatImage4 3 (by decide) (by decide) (by decide)
     (by decide) (by decide) (by decide) (by decide) (by decide)⟩

/-- C7: the `sigma_ratio` validation does not behave as claimed.  The guard
`if(!_sigma_ratio>1)` of the `DoGFilter` constructors and `set_sigma_ratio`
parses as `(!_sigma_ratio) > 1` and is never true, so `set_sigma_ratio (1/2)`
raises no error and stores `1/2`; indeed every ratio is accepted.
`Boxxer::setDoGSigmaRatio` does reject ratios `<= 1` and leaves the state
unchanged, but raises `ParameterShapeError`, not the claimed
`ParameterValueError`. -/
theorem sigma_ratio_validation_broken :
    DoG_set_sigma_ratio (1/2) = Except.ok (1/2) ∧
    Boxxer_setDoGSigmaRatio (1/2) = Except.error BoxxerErr.parameterShape ∧
    ∀ r : ℚ, DoG_set_sigma_ratio r = Except.ok r := by
  refine ⟨?_, ?_, fun r => ?_⟩
  · norm_num [DoG_set_sigma_ratio, cppNot]
  · norm_num [Boxxer_setDoGSigmaRatio]
  · rcases eq_or_ne r 0 with h | h <;> simp [DoG_set_sigma_ratio, cppNot, h]

/-- C8: cross-scale non-maximum rejection is idempotent.  The 2D refine is a
per-column filter whose predicate depends only on the column, the value and
the scaled image, so re-applying it to its own output changes nothing.  The
3D refine produces a table only when at least one candidate survives
(otherwise its final arma `span(0, nNewMaxima-1)` is out of bounds); whenever
the first application returns a table, re-applying it returns the same
table. -/
theorem scale_refine_idempotent {α : Type} [LinearOrder α]
    (sim2 : ScaledImage2D α) (sim3 : ScaledImage3D α) (s2 s3 : ℕ)
    (t2 t3 : MaximaTable α) :
    scaleSpaceFrameMaximaRefine2D sim2 s2
        (scaleSpaceFrameMaximaRefine2D sim2 s2 t2) =
      scaleSpaceFrameMaximaRefine2D sim2 s2 t2 ∧
    ∀ o, scaleSpaceFrameMaximaRefine3D sim3 s3 t3 = some o →
      scaleSpaceFrameMaximaRefine3D sim3 s3 o = some o := by
  constructor
  · simp [scaleSpaceFrameMaximaRefine2D, List.filter_filter]
  · intro o h
    unfold scaleSpaceFrameMaximaRefine3D at h ⊢
    set p := scaleKeep3D sim3 ((s3 - 1) / 2) with hp
    by_cases hk : (t3.entries.filter p).isEmpty
    · simp [hk] at h
    · simp only [hk, Bool.false_eq_true, not_false_eq_true, if_false,
        Option.some.injEq] at h
      subst h
      simp [List.filter_filter, hk]

/-- C8 witness: a concrete 3D run on an all-zero 1×1×1×1 scaled image keeps
its single candidate, and re-applying the refine returns it unchanged. -/
theorem scale_refine_idempotent_witness :
    scaleSpaceFrameMaximaRefine3D
        (ScaledImage3D.mk 1 1 1 1 (fun _ _ _ _ => (0:ℚ))) 3
        (MaximaTable.mk 4 [([0,0,0,0], 0)]) =
      some (MaximaTable.mk 4 [([0,0,0,0], (0:ℚ))]) ∧
    scaleSpaceFrameMaximaRefine3D
        (ScaledImage3D.mk 1 1 1 1 (fun _ _ _ _ => (0:ℚ))) 3
        (MaximaTable.mk 4 [([0,0,0,0], (0:ℚ))]) =
      some (MaximaTable.mk 4 [([0,0,0,0], (0:ℚ))]) :=
  ⟨rfl,
   (scale_refine_idempotent (ScaledImage2D.mk 1 1 1 (fun _ _ _ => (0:ℚ)))
      (ScaledImage3D.mk 1 1 1 1 (fun _ _ _ _ => (0:ℚ))) 3 3
      (MaximaTable.mk 3 []) (MaximaTable.mk 4 [([0,0,0,0], 0)])).2
     (MaximaTable.mk 4 [([0,0,0,0], (0:ℚ))]) rfl⟩

/-- C10: every candidate-pruning stage returns a subsequence of its input
candidate list: the n×n refinements of `Maxima2D`/`Maxima3D` and the
cross-scale refines of `Boxxer2D`/`Boxxer3D` keep a subset of the input
columns in order with unchanged values, and never more of them than they
received. -/
theorem prune_and_refine_are_subsequences {α : Type} [LinearOrder α]
    (im2 : Image2D α) (im3 : Image3D α)
    (sim2 : ScaledImage2D α) (sim3 : ScaledImage3D α)
    (B2 B3 s2 s3 : ℕ) (c2 : List (Cand2 α)) (c3 : List (Cand3 α))
    (t2 t3 : MaximaTable α) :
    ((maxima_nxn_prune im2 B2 c2).Sublist c2 ∧
      (maxima_nxn_prune im2 B2 c2).length ≤ c2.length) ∧
    ((maxima_nxn_prune3D im3 B3 c3).Sublist c3 ∧
      (maxima_nxn_prune3D im3 B3 c3).length ≤ c3.length) ∧
    ((scaleSpaceFrameMaximaRefine2D sim2 s2 t2).entries.Sublist t2.entries ∧
      (scaleSpaceFrameMaximaRefine2D sim2 s2 t2).entries.length ≤
        t2.entries.length) ∧
    (∀ o, scaleSpaceFrameMaximaRefine3D sim3 s3 t3 = some o →
      o.entries.Sublist t3.entries ∧
        o.entries.length ≤ t3.entries.length) := by
  refine ⟨⟨List.filter_sublist _, List.length_filter_le _ _⟩,
          ⟨List.filter_sublist _, List.length_filter_le _ _⟩,
          ⟨List.filter_sublist _, List.length_filter_le _ _⟩, ?_⟩
  intro o h
  unfold scaleSpaceFrameMaximaRefine3D at h
  by_cases hk : (t3.entries.filter (scaleKeep3D sim3 ((s3 - 1) / 2))).isEmpty
  · simp [hk] at h
  · simp only [hk, Bool.false_eq_true, not_false_eq_true, if_false,
      Option.some.injEq] at h
    subst h
    exact ⟨List.filter_sublist _, List.length_filter_le _ _⟩

/-- C10 witness: the 3D cross-scale refine, on a concrete table that it
accepts, returns a subsequence of the input. -/
theorem prune_and_refine_are_subsequences_witness :
    scaleSpaceFrameMaximaRefine3D
        (ScaledImage3D.mk 1 1 1 1 (fun _ _ _ _ => (0:ℚ))) 3
        (MaximaTable.mk 4 [([0,0,0,0], 0)]) =
      some (MaximaTable.mk 4 [([0,0,0,0], (0:ℚ))]) ∧
    (MaximaTable.mk 4 [([0,0,0,0], (0:ℚ))]).entries.Sublist
      (MaximaTable.mk 4 [([0,0,0,0], (0:ℚ))]).entries :=
  ⟨rfl,
   ((prune_and_refine_are_subsequences
      (Image2D.mk 1 1 (fun _ _ => (0:ℚ))) (Image3D.mk 1 1 1 (fun _ _ _ => 0))
      (ScaledImage2D.mk 1 1 1 (fun _ _ _ => 0))
      (ScaledImage3D.mk 1 1 1 1 (fun _ _ _ _ => 0)) 5 5 3 3 [] []
      (MaximaTable.mk 3 []) (MaximaTable.mk 4 [([0,0,0,0], 0)])).2.2.2
     (MaximaTable.mk 4 [([0,0,0,0], (0:ℚ))]) rfl).1⟩


/-- C6: every reference ("small") axis-FIR variant realizes half-sample
symmetric mirroring with no repeated endpoint: each output sample is the sum
of `kernel[|r|]·in[m(x+r)]` over `r ∈ [-hw, hw]` with `-L ≤ x+r < 2L`, where
`m` reflects negative indices to `-i-1` and overflowing indices to `2L-i-1`;
in particular for `in = [1,0,0,0,0]` with `hw = 2`,
`out[0] = k[0]·1 + k[1]·(0+1) + k[2]·(0+0)`. -/
theorem small_variants_realize_mirror {α : Type} [LinearOrderedField α]
    (L : ℕ) (d : ℕ → α) (hw : ℕ) (k : ℕ → α) (x : ℕ)
    (im2 : Image2D α) (im3 : Image3D α) (x2 y2 x3 y3 z3 : ℕ) :
    smallLine L d hw k x = mirrorSum L d hw k x ∧
    (gaussFIR_2Dx_small im2 hw k).val x2 y2 =
      mirrorSum im2.sizeX (fun i => im2.val i y2) hw k x2 ∧
    (gaussFIR_2Dy_small im2 hw k).val x2 y2 =
      mirrorSum im2.sizeY (fun j => im2.val x2 j) hw k y2 ∧
    (gaussFIR_3Dx_small im3 hw k).val x3 y3 z3 =
      mirrorSum im3.sizeX (fun i => im3.val i y3 z3) hw k x3 ∧
    (gaussFIR_3Dy_small im3 hw k).val x3 y3 z3 =
      mirrorSum im3.sizeY (fun j => im3.val x3 j z3) hw k y3 ∧
    (gaussFIR_3Dz_small im3 hw k).val x3 y3 z3 =
      mirrorSum im3.sizeZ (fun l => im3.val x3 y3 l) hw k z3 ∧
    ∀ kk : ℕ → α, smallLine 5 (fun i => if i = 0 then 1 else 0) 2 kk 0 =
      kk 0 * 1 + kk 1 * (0 + 1) + kk 2 * (0 + 0) := by
  refine ⟨smallLine_eq_mirrorSum .., ?_, ?_, ?_, ?_, ?_, fun kk => ?_⟩
  · simp only [gaussFIR_2Dx_small]; exact smallLine_eq_mirrorSum ..
  · simp only [gaussFIR_2Dy_small]; exact smallLine_eq_mirrorSum ..
  · simp only [gaussFIR_3Dx_small]; exact smallLine_eq_mirrorSum ..
  · simp only [gaussFIR_3Dy_small]; exact smallLine_eq_mirrorSum ..
  · simp only [gaussFIR_3Dz_small]; exact smallLine_eq_mirrorSum ..
  · show (List.map _ (List.map _ (List.range 5))).sum = _
    norm_num [List.range_succ]
    rw [if_neg (by decide)]
    ring

/-- C5: over the reals, `compute_Gauss_FIR_kernel(sigma, hw)` returns `hw+1`
coefficients equal to `exp(-r²/(2σ²))` divided by
`s = 1 + 2·Σ_{r=1..hw} exp(-r²/(2σ²))`, so the implied full symmetric kernel
sums to exactly 1, and in particular `kernel[0] + 2·Σ_{r≥1} kernel[r]`
differs from 1 by at most 4 binary64 machine epsilons. -/
theorem gauss_kernel_normalized (sigma : ℝ) (hw : ℕ)
    (hs : 0 < sigma) (hhw : 1 ≤ hw) :
    (compute_Gauss_FIR_kernel sigma hw).length = hw + 1 ∧
    (∀ r ≤ hw, (compute_Gauss_FIR_kernel sigma hw).getD r 0 =
      Real.exp (-(r:ℝ)^2 / (2 * sigma^2)) /
        (1 + 2 * ∑ j ∈ Finset.Icc 1 hw, Real.exp (-(j:ℝ)^2 / (2 * sigma^2)))) ∧
    (compute_Gauss_FIR_kernel sigma hw).getD 0 0 +
      2 * (∑ r ∈ Finset.Icc 1 hw, (compute_Gauss_FIR_kernel sigma hw).getD r 0)
      = 1 ∧
    |(compute_Gauss_FIR_kernel sigma hw).getD 0 0 +
      2 * (∑ r ∈ Finset.Icc 1 hw, (compute_Gauss_FIR_kernel sigma hw).getD r 0)
      - 1| ≤ 4 * machineEps := by
  have hσ : sigma ≠ 0 := ne_of_gt hs
  have harg : ∀ r : ℕ, (r:ℝ) * (r:ℝ) * (-(1/2) / (sigma * sigma)) =
      -(r:ℝ)^2 / (2 * sigma^2) := by
    intro r; field_simp; ring
  have hsum : gaussKernelSum sigma hw =
      1 + 2 * ∑ j ∈ Finset.Icc 1 hw, Real.exp (-(j:ℝ)^2 / (2 * sigma^2)) := by
    unfold gaussKernelSum
    rw [Finset.mul_sum]
    exact congrArg (1 + ·) (Finset.sum_congr rfl fun j _ => by rw [harg])
  have hS : (0:ℝ) <
      1 + 2 * ∑ j ∈ Finset.Icc 1 hw, Real.exp (-(j:ℝ)^2 / (2 * sigma^2)) := by
    rw [← hsum]; exact gaussKernelSum_pos sigma hw
  have hcoef : ∀ r ≤ hw, (compute_Gauss_FIR_kernel sigma hw).getD r 0 =
      Real.exp (-(r:ℝ)^2 / (2 * sigma^2)) /
        (1 + 2 * ∑ j ∈ Finset.Icc 1 hw, Real.exp (-(j:ℝ)^2 / (2 * sigma^2))) := by
    intro r hr
    show kernelFun (compute_Gauss_FIR_kernel sigma hw) r = _
    unfold kernelFun compute_Gauss_FIR_kernel
    rw [getD_map_range, if_pos (by omega), hsum]
    rcases Nat.eq_zero_or_pos r with h0 | h0
    · subst h0; norm_num
    · rw [if_neg (by omega), harg]
  have hnorm : (compute_Gauss_FIR_kernel sigma hw).getD 0 0 +
      2 * (∑ r ∈ Finset.Icc 1 hw, (compute_Gauss_FIR_kernel sigma hw).getD r 0)
      = 1 := by
    rw [hcoef 0 (by omega)]
    rw [Finset.sum_congr rfl fun r hr =>
      hcoef r (by simpa using (Finset.mem_Icc.mp hr).2)]
    rw [← Finset.sum_div]
    norm_num
    field_simp
  refine ⟨by simp [compute_Gauss_FIR_kernel], hcoef, hnorm, ?_⟩
  · rw [hnorm]
    simp only [sub_self, abs_zero]
    unfold machineEps
    positivity

/-- C5 witness: the kernel properties at the concrete parameters `sigma = 1`,
`hw = 2`. -/
theorem gauss_kernel_normalized_witness :
    (0:ℝ) < 1 ∧ 1 ≤ 2 ∧
    (compute_Gauss_FIR_kernel 1 2).getD 0 0 +
      2 * (∑ r ∈ Finset.Icc 1 2, (compute_Gauss_FIR_kernel 1 2).getD r 0)
      = 1 :=
  ⟨by norm_num, by norm_num,
    (gauss_kernel_normalized 1 2 (by norm_num) (by norm_num)).2.2.1⟩

/-- C9: the separable Gaussian filters are non-negative operators: if every
in-bounds entry of the input is `≥ 0`, every in-bounds entry of the output of
`GaussFilter2D::filter` and `GaussFilter3D::filter` is `≥ 0` (all kernel
coefficients are non-negative and every axis pass is a non-negative
combination of in-bounds samples). -/
theorem gauss_filter_nonneg (sigma0 sigma1 sigma2 : ℝ) (hw0 hw1 hw2 : ℕ)
    (im2 : Image2D ℝ) (im3 : Image3D ℝ)
    (_hs0 : 0 < sigma0) (_hs1 : 0 < sigma1) (_hs2 : 0 < sigma2)
    (_hhw0 : 1 ≤ hw0) (_hhw1 : 1 ≤ hw1) (_hhw2 : 1 ≤ hw2)
    (h2 : ∀ x < im2.sizeX, ∀ y < im2.sizeY, 0 ≤ im2.val x y)
    (h3 : ∀ x < im3.sizeX, ∀ y < im3.sizeY, ∀ z < im3.sizeZ,
      0 ≤ im3.val x y z) :
    (∀ x < im2.sizeX, ∀ y < im2.sizeY,
      0 ≤ (GaussFilter2D_filter sigma0 sigma1 hw0 hw1 im2).val x y) ∧
    (∀ x < im3.sizeX, ∀ y < im3.sizeY, ∀ z < im3.sizeZ,
      0 ≤ (GaussFilter3D_filter sigma0 sigma1 sigma2 hw0 hw1 hw2 im3).val x y z)
    := by
  constructor
  · intro x hx y hy
    apply firLine_nonneg hy _ (gauss_kernelFun_nonneg sigma1 hw1)
    intro j hj
    exact firLine_nonneg hx (fun i hi => h2 i hi j hj)
      (gauss_kernelFun_nonneg sigma0 hw0)
  · intro x hx y hy z hz
    apply firLine_nonneg hz _ (gauss_kernelFun_nonneg sigma2 hw2)
    intro l hl
    apply firLine_nonneg hy _ (gauss_kernelFun_nonneg sigma1 hw1)
    intro j hj
    exact firLine_nonneg hx (fun i hi => h3 i hi j hj l hl)
      (gauss_kernelFun_nonneg sigma0 hw0)

/-- C9 witness: the filters at concrete parameters on the all-zero 1×1(×1)
image yield non-negative entries. -/
theorem gauss_filter_nonneg_witness :
    0 ≤ (GaussFilter2D_filter 1 1 1 1 (Image2D.mk 1 1 fun _ _ => 0)).val 0 0 ∧
    0 ≤ (GaussFilter3D_filter 1 1 1 1 1 1
          (Image3D.mk 1 1 1 fun _ _ _ => 0)).val 0 0 0 :=
  ⟨(gauss_filter_nonneg 1 1 1 1 1 1 (Image2D.mk 1 1 fun _ _ => 0)
      (Image3D.mk 1 1 1 fun _ _ _ => 0) (by norm_num) (by norm_num)
      (by norm_num) (by norm_num) (by norm_num) (by norm_num)
      (fun x _ y _ => le_refl 0) (fun x _ y _ z _ => le_refl 0)).1
    0 (by norm_num) 0 (by norm_num),
   (gauss_filter_nonneg 1 1 1 1 1 1 (Image2D.mk 1 1 fun _ _ => 0)
      (Image3D.mk 1 1 1 fun _ _ _ => 0) (by norm_num) (by norm_num)
      (by norm_num) (by norm_num) (by norm_num) (by norm_num)
      (fun x _ y _ => le_refl 0) (fun x _ y _ z _ => le_refl 0)).2
    0 (by norm_num) 0 (by norm_num) 0 (by norm_num)⟩



/-- C3 counterexample: on a concrete one-frame 3×3 stack with one scale, the
coordinate table returned by `Boxxer2D::scaleSpaceLoGMaxima` has 4 rows
(`[x, y, scale, frame]`), not the claimed `d + 1 = 3`: the per-frame stage
hands `combine_maxima` 3-row tables (the scale row is *not* dropped), so the
global combine appends a fourth, frame-index row. -/
theorem scale_row_not_dropped :
    (scaleSpaceLoGMaxima2D 3 [(1,1)] [Image2D.mk 3 3 fun _ _ => 0] 3 3).nrows
      = 4 ∧
    ¬ (scaleSpaceLoGMaxima2D 3 [(1,1)] [Image2D.mk 3 3 fun _ _ => 0] 3 3).nrows
      = 3 := by
  have h : (scaleSpaceLoGMaxima2D 3 [(1,1)]
      [Image2D.mk 3 3 fun _ _ => 0] 3 3).nrows = 4 := rfl
  exact ⟨h, by rw [h]; omega⟩

/-- C3 (amended): for every non-empty input stack and non-empty scale set,
the coordinate matrix returned by `Boxxer2D::scaleSpaceLoGMaxima` and
`scaleSpaceDoGMaxima` has `d + 2 = 4` rows; each column is a 3-row per-frame
column (`[x, y, scale]`) with its frame index appended as the last row.
Likewise `Boxxer3D` (with the per-scale finder emissions abstracted, since
only the fixed 3-row shape of `Maxima3D::read_maxima` matters) returns
`d + 2 = 5` rows with the frame index last. -/
theorem scaleSpace_table_layout {α : Type} [LinearOrder α]
    (hwRatio sr : ℝ) (sigma : List (ℝ × ℝ)) (frames : List (Image2D ℝ))
    (nbhd snbhd : ℕ) (sims : List (ScaledImage3D α))
    (find : Image3D α → List (Cand3 α)) (snbhd3 : ℕ)
    (hσ : sigma ≠ []) (hf : frames ≠ []) (hs : sims ≠ [])
    (hsc : ∀ sim ∈ sims, sim.nScales ≠ 0) :
    (scaleSpaceLoGMaxima2D hwRatio sigma frames nbhd snbhd).nrows = 4 ∧
    (∀ e ∈ (scaleSpaceLoGMaxima2D hwRatio sigma frames nbhd snbhd).entries,
      ∃ n, ∃ hn : n < frames.length, ∃ c v, e = (c ++ [n], v) ∧
        c.length = 3 ∧
        (c, v) ∈ (scaleSpaceFrameMaxima2D
          (LoGScaledImage2D hwRatio sigma frames[n]) nbhd snbhd).entries) ∧
    (scaleSpaceDoGMaxima2D hwRatio sr sigma frames nbhd snbhd).nrows = 4 ∧
    (∀ e ∈ (scaleSpaceDoGMaxima2D hwRatio sr sigma frames nbhd snbhd).entries,
      ∃ n, ∃ hn : n < frames.length, ∃ c v, e = (c ++ [n], v) ∧
        c.length = 3) ∧
    (∀ o, scaleSpaceMaxima3D sims find snbhd3 = some o →
      o.nrows = 5 ∧
      ∀ e ∈ o.entries, ∃ n, ∃ hn : n < sims.length, ∃ c v,
        e = (c ++ [n], v) ∧ c.length = 4) := by
  have hσn : sigma.length ≠ 0 := by
    cases sigma with
    | nil => exact absurd rfl hσ
    | cons a l => simp
  refine ⟨?_, ?_, ?_, ?_, ?_⟩
  · show (combine_maxima _).nrows = 4
    obtain ⟨f0, frest, rfl⟩ := List.exists_cons_of_ne_nil hf
    unfold combine_maxima
    simp only [List.map_cons, List.headD_cons]
    rw [frame2D_nrows _ nbhd snbhd (by simpa [LoGScaledImage2D] using hσn)]
  · intro e he
    obtain ⟨n, hn, c, v, rfl, hcv⟩ :=
      combine_maxima_mem.mp (by simpa only [scaleSpaceLoGMaxima2D] using he)
    rw [List.getElem_map] at hcv
    simp only [List.length_map] at hn
    exact ⟨n, hn, c, v, rfl, frame2D_entry_len hcv, hcv⟩
  · show (combine_maxima _).nrows = 4
    obtain ⟨f0, frest, rfl⟩ := List.exists_cons_of_ne_nil hf
    unfold combine_maxima
    simp only [List.map_cons, List.headD_cons]
    rw [frame2D_nrows _ nbhd snbhd (by simpa [DoGScaledImage2D] using hσn)]
  · intro e he
    obtain ⟨n, hn, c, v, rfl, hcv⟩ :=
      combine_maxima_mem.mp (by simpa only [scaleSpaceDoGMaxima2D] using he)
    rw [List.getElem_map] at hcv
    simp only [List.length_map] at hn
    exact ⟨n, hn, c, v, rfl, frame2D_entry_len hcv⟩
  · intro o ho
    unfold scaleSpaceMaxima3D at ho
    obtain ⟨ts, hts, rfl⟩ := Option.map_eq_some'.mp ho
    obtain ⟨hlen, helem⟩ := mapM_option_spec _ sims ts hts
    have hts0 : ts ≠ [] := by
      intro hcon
      rw [hcon] at hlen
      exact hs (List.eq_nil_of_length_eq_zero hlen.symm)
    obtain ⟨t0, trest, rfl⟩ := List.exists_cons_of_ne_nil hts0
    have hslen : 0 < sims.length := List.length_pos.mpr hs
    constructor
    · show (combine_maxima _).nrows = 5
      unfold combine_maxima
      simp only [List.headD_cons]
      have h0 := helem 0 hslen (by simp)
      simp only [List.getElem_cons_zero] at h0
      have := (frame3D_shape h0).1
        (hsc _ (List.getElem_mem (l := sims) hslen))
      omega
    · intro e he
      obtain ⟨n, hn, c, v, rfl, hcv⟩ := combine_maxima_mem.mp he
      have hfnd := helem n (by omega) hn
      exact ⟨n, by omega, c, v, rfl, (frame3D_shape hfnd).2 _ hcv⟩

/-- C3 witness: the amended layout at a concrete one-frame stack (2D) and a
concrete successful 3D run. -/
theorem scaleSpace_table_layout_witness :
    (scaleSpaceLoGMaxima2D 3 [(1,1)] [Image2D.mk 3 3 fun _ _ => 0] 3 3).nrows
      = 4 ∧
    ∀ o, scaleSpaceMaxima3D
        [ScaledImage3D.mk 1 1 1 1 (fun _ _ _ _ => (0:ℚ))]
        (fun _ => [(0, 0, 0, (0:ℚ))]) 3 = some o → o.nrows = 5 :=
  ⟨(scaleSpace_table_layout 3 2 [(1,1)] [Image2D.mk 3 3 fun _ _ => 0] 3 3
      [ScaledImage3D.mk 1 1 1 1 (fun _ _ _ _ => (0:ℚ))]
      (fun _ => [(0, 0, 0, (0:ℚ))]) 3 (by simp) (by simp) (by simp)
      (by intro sim hsim; rw [List.mem_singleton] at hsim; subst hsim; simp)).1,
   fun o ho =>
    ((scaleSpace_table_layout 3 2 [(1,1)] [Image2D.mk 3 3 fun _ _ => 0] 3 3
      [ScaledImage3D.mk 1 1 1 1 (fun _ _ _ _ => (0:ℚ))]
      (fun _ => [(0, 0, 0, (0:ℚ))]) 3 (by simp) (by simp) (by simp)
      (by intro sim hsim; rw [List.mem_singleton] at hsim; subst hsim;
          simp)).2.2.2.2 o ho).1⟩


end Boxxer
